import Mathlib

/-!
Verification of the accuracy-first retrieval pipeline of the
`albanian-law-ai` backend (query expansion, hybrid search with RRF
fusion and article cohesion, multi-query aggregation, context
stitching, confidence gate and the looping coverage self-check).

The Python modules `backend/text_normalizer.py`, `backend/query_expander.py`,
`backend/hybrid_search.py`, `backend/context_stitcher.py` and
`backend/chat.py` are shallowly embedded below.  External services
(the language model, the vector and keyword search stores, the SQLite
neighbor fetch) are modelled as explicit oracle parameters; Python
floats are modelled as exact rationals; Python dicts keyed by strings
are modelled as insertion-ordered association lists.  Places where
Python is nondeterministic (iteration order of `set`) are modelled by
first-seen-order deduplication, noted locally.
-/

namespace LawAI

/- ═══════════════ Python string primitives ═══════════════ -/

/-- Python `\s` / `str.strip` whitespace characters (ASCII range). -/
def isPySpace (c : Char) : Bool :=
  c.toNat = 32 || c.toNat = 9 || c.toNat = 10 || c.toNat = 13 ||
  c.toNat = 11 || c.toNat = 12

/-- ASCII lowercasing, as `str.lower` acts on ASCII letters. -/
def asciiLowerChar (c : Char) : Char :=
  if 65 ≤ c.toNat && c.toNat ≤ 90 then Char.ofNat (c.toNat + 32) else c

/-- `str.lower` on the alphabet this corpus uses: ASCII plus the two
Albanian diacritic letters Ë and Ç. -/
def pyLowerChar (c : Char) : Char :=
  if c = 'Ë' then 'ë' else if c = 'Ç' then 'ç' else asciiLowerChar c

def pyLower (s : String) : String := String.mk (s.toList.map pyLowerChar)

/-- `str.strip()` on a character list. -/
def stripChars (l : List Char) : List Char :=
  ((l.dropWhile isPySpace).reverse.dropWhile isPySpace).reverse

def pyStrip (s : String) : String := String.mk (stripChars s.toList)

/-- `str.rstrip(chars)`: drop the given characters from the end. -/
def pyRStripChars (bad : List Char) (s : String) : String :=
  String.mk ((s.toList.reverse.dropWhile (fun c => bad.contains c)).reverse)

/-- Python `\w` on this corpus: ASCII alphanumerics, underscore, and the
Albanian diacritic letters. -/
def isWordChar (c : Char) : Bool :=
  c.isAlphanum || c = '_' || c = 'ë' || c = 'Ë' || c = 'ç' || c = 'Ç'

def isDigitChar (c : Char) : Bool := c.isDigit

/-- Maximal runs of characters satisfying `p`, in order (with a fuel
argument so that the kernel can evaluate it; the fuel is the input
length, which always suffices since every step consumes a character). -/
def charRunsGo (p : Char → Bool) : Nat → List Char → List (List Char)
  | 0, _ => []
  | _, [] => []
  | fuel + 1, c :: cs =>
    if p c then
      (c :: cs.takeWhile p) :: charRunsGo p fuel (cs.dropWhile p)
    else
      charRunsGo p fuel cs

def charRuns (p : Char → Bool) (l : List Char) : List (List Char) :=
  charRunsGo p l.length l

/-- `re.findall(r'\b\w{n,}\b', s)`: maximal word-character runs of
length at least `n`. -/
def wordRuns (n : Nat) (s : String) : List String :=
  ((charRuns isWordChar s.toList).filter (fun r => n ≤ r.length)).map String.mk

/-- `l.startsWith p` for character lists. -/
def startsWithChars : List Char → List Char → Bool
  | _, [] => true
  | [], _ :: _ => false
  | c :: cs, p :: ps => c = p && startsWithChars cs ps

/-- Substring containment (`p in s` for Python strings). -/
def containsSub (l p : List Char) : Bool :=
  match l with
  | [] => startsWithChars [] p
  | _ :: rest => startsWithChars l p || containsSub rest p

def pyContains (s sub : String) : Bool := containsSub s.toList sub.toList

/-- `str.replace(old, new)` — replace every occurrence, left to right.
`old` is assumed non-empty (all call sites pass extracted keywords). -/
def replaceCharsGo (old new : List Char) : Nat → List Char → List Char
  | 0, _ => []
  | _, [] => []
  | fuel + 1, c :: cs =>
    if old ≠ [] ∧ startsWithChars (c :: cs) old then
      new ++ replaceCharsGo old new fuel ((c :: cs).drop old.length)
    else
      c :: replaceCharsGo old new fuel cs

def replaceChars (old new : List Char) (l : List Char) : List Char :=
  replaceCharsGo old new l.length l

def pyReplace (s old new : String) : String :=
  String.mk (replaceChars old.toList new.toList s.toList)

/-- `str.split()` with no argument: split on whitespace runs, dropping
empty pieces. -/
def pySplit (s : String) : List String :=
  (charRuns (fun c => !isPySpace c) s.toList).map String.mk

/-- `" ".join l`. -/
def joinSpace (l : List String) : String := String.intercalate " " l

/-- Python's `list(set(xs))` for strings.  CPython's iteration order over
a set is hash-dependent; we determinize to first-seen order, which is
sound for every property proved below (none depends on this order). -/
def dedupFirstSeen (l : List String) : List String :=
  go [] l
where
  go (seen : List String) : List String → List String
    | [] => []
    | x :: xs => if seen.contains x then go seen xs else x :: go (x :: seen) xs

/- ═══════════════ backend/config.py (Settings) ═══════════════ -/

/-- The configuration fields consumed by the retrieval core
(`backend/config.py`, class `Settings`), with their source defaults. -/
structure Settings where
  CONFIDENCE_MIN_SIMILARITY : ℚ := 0.35
  HYBRID_VECTOR_WEIGHT : ℚ := 0.6
  HYBRID_KEYWORD_WEIGHT : ℚ := 0.4
  HYBRID_FETCH_K : Nat := 40
  HYBRID_FINAL_K : Nat := 8
  MQ_FETCH_K : Nat := 150
  MQ_FINAL_K : Nat := 40
  MQ_STITCH_WINDOW : Int := 2
  MQ_COVERAGE_MAX_PASSES : Nat := 3
  MQ_COVERAGE_EXTRA_K : Nat := 10
deriving Repr, DecidableEq

def defaultSettings : Settings := {}

/- ═══════════════ backend/context_stitcher.py ═══════════════ -/

/-- A chunk dict as seen by `stitch_neighbors`: the fields it reads and
writes.  Optional fields model `dict.get` on possibly-missing keys. -/
structure StitchChunk where
  text : Option String := none
  content : Option String := none
  doc_id : Option String := none
  document_id : Option String := none
  chunk_index : Int := 0
  stitched_text : Option String := none
  neighbor_indices : List Int := []
deriving Repr, DecidableEq

/-- `c.get("text") or c.get("content", "")` — Python `or` falls through
on a falsy (absent or empty) first operand. -/
def textOrContent (c : StitchChunk) : String :=
  match c.text with
  | some t => if t ≠ "" then t else c.content.getD ""
  | none => c.content.getD ""

/-- `str(c.get("doc_id") or c.get("document_id", ""))`. -/
def stitchDocId (c : StitchChunk) : String :=
  match c.doc_id with
  | some d => if d ≠ "" then d else c.document_id.getD ""
  | none => c.document_id.getD ""

/-- Integer range `[lo, hi)`, as Python `range`. -/
def intRange (lo hi : Int) : List Int :=
  (List.range (hi - lo).toNat).map (fun n => lo + n)

/-- The self-stitch performed on the `window < 1` and empty-doc-id
paths: annotate with the chunk's own text and own index. -/
def selfStitch (c : StitchChunk) : StitchChunk :=
  { c with stitched_text := some (textOrContent c),
           neighbor_indices := [c.chunk_index] }

/-- One chunk's stitched text on the `window ≥ 1` path.  `db doc idx`
is the batched neighbor fetch (`SELECT chunk_index, content FROM
document_chunks ...`), returning the stored content when the row
exists.  The Python code first unions all needed indexes per document
and fetches once; since the fetched map is consulted only at
`idx ± offset` for each target chunk, per-chunk lookup is equivalent. -/
def stitchOne (db : String → Int → Option String) (w : Int)
    (c : StitchChunk) : StitchChunk :=
  let did := stitchDocId c
  if did = "" then selfStitch c
  else
    let idx := c.chunk_index
    let offs := intRange (-w) (w + 1)
    let found := offs.filterMap (fun o =>
      match db did (idx + o) with
      | some t => some (idx + o, t)
      | none => none)
    let parts := found.map Prod.snd
    let neighborIds := found.map Prod.fst
    if parts ≠ [] then
      { c with stitched_text := some (String.intercalate "\n\n" parts),
               neighbor_indices := neighborIds }
    else
      { c with stitched_text := some (textOrContent c),
               neighbor_indices := [] }

/-- `stitch_neighbors(chunks, window)` (backend/context_stitcher.py).
The chunk list is returned in its original order with the
`stitched_text` / `neighbor_indices` annotations added; `db` models the
SQLite lookup, unused when `window < 1`. -/
def stitchNeighbors (db : String → Int → Option String)
    (chunks : List StitchChunk) (window : Int) : List StitchChunk :=
  if chunks = [] ∨ window < 1 then chunks.map selfStitch
  else chunks.map (stitchOne db window)

/- ═══════════════ backend/text_normalizer.py ═══════════════ -/

/-- `_ALBANIAN_CHAR_MAP` applied characterwise (ë→e, Ë→E, ç→c, Ç→C). -/
def albanianCharFold (c : Char) : Char :=
  if c = 'ë' then 'e' else if c = 'Ë' then 'E'
  else if c = 'ç' then 'c' else if c = 'Ç' then 'C' else c

/-- `re.sub(r'\s+', ' ', l)`: collapse whitespace runs to one space
(fuel-based for kernel evaluability; fuel = input length suffices). -/
def collapseWsGo : Nat → List Char → List Char
  | 0, _ => []
  | _, [] => []
  | fuel + 1, c :: cs =>
    if isPySpace c then ' ' :: collapseWsGo fuel (cs.dropWhile isPySpace)
    else c :: collapseWsGo fuel cs

def collapseWs (l : List Char) : List Char := collapseWsGo l.length l

/-- `normalize_for_search` — Unicode NFKC is modelled as the identity
(the corpus text is already composed; NFKC only rewrites compatibility
characters), then diacritic folding, whitespace collapse and strip. -/
def normalizeForSearch (text : String) : String :=
  if text = "" then ""
  else String.mk (stripChars (collapseWs (text.toList.map albanianCharFold)))

/-- `normalize_query`: normalize for search, then lowercase. -/
def normalizeQuery (query : String) : String :=
  pyLower (normalizeForSearch query)

/-- `expand_diacritical_variants` — the Python `set` is modelled in
first-seen insertion order (`word`, stripped form, e→ë form, c→ç form). -/
def expandDiacriticalVariants (word : String) : List String :=
  if word = "" then [word]
  else
    let stripped := String.mk (word.toList.map albanianCharFold)
    let accE := pyReplace word "e" "ë"
    let accC := pyReplace word "c" "ç"
    dedupFirstSeen ([word, stripped]
      ++ (if accE ≠ word then [accE] else [])
      ++ (if accC ≠ word then [accC] else []))

/-- `_LEGAL_SYNONYMS` (various inflected forms → canonical root). -/
def legalSynonyms : List (String × String) :=
  [("nene", "neni"), ("nenin", "neni"), ("nenit", "neni"), ("neneve", "neni"),
   ("ligji", "ligj"), ("ligjin", "ligj"), ("ligjit", "ligj"), ("ligjeve", "ligj"),
   ("kushtetuta", "kushtetute"), ("kushtetutes", "kushtetute"),
   ("kushtetuese", "kushtetute"), ("kushtetutese", "kushtetute"),
   ("kodi", "kod"), ("kodit", "kod"), ("kodeve", "kod"),
   ("gjykata", "gjykate"), ("gjykates", "gjykate"), ("gjykatave", "gjykate"),
   ("vendimi", "vendim"), ("vendimit", "vendim"), ("vendimeve", "vendim"),
   ("kontrata", "kontrate"), ("kontrates", "kontrate"), ("kontratave", "kontrate"),
   ("pronesia", "pronesi"), ("pronesise", "pronesi"), ("pronesive", "pronesi"),
   ("detyrimi", "detyrim"), ("detyrimit", "detyrim"), ("detyrimeve", "detyrim"),
   ("drejta", "drejte"), ("drejtes", "drejte"), ("drejtave", "drejte"),
   ("arsimi", "arsim"), ("arsimin", "arsim"), ("arsimit", "arsim"),
   ("arsimim", "arsim"), ("arsimor", "arsim")]

/-- `get_legal_root` — `dict.get(a) or dict.get(b)` (all stored roots are
non-empty, so `or` is exactly option-fallthrough). -/
def getLegalRoot (word : String) : Option String :=
  let w := pyStrip (pyLower word)
  let wNorm := normalizeQuery w
  match legalSynonyms.lookup wNorm with
  | some r => some r
  | none => legalSynonyms.lookup w

/-- `normalize_legal_query`: canonicalize each word by its legal root
when one exists, otherwise by `normalize_query`. -/
def normalizeLegalQuery (query : String) : String :=
  joinSpace ((pySplit query).map (fun w =>
    match getLegalRoot w with
    | some r => r
    | none => normalizeQuery w))

/- ═══════════════ regex scanners for query_expander.py ═══════════════ -/

/-- Match a literal, returning chars consumed and the remainder. -/
def mLit (lit : List Char) (l : List Char) : Option (Nat × List Char) :=
  if startsWithChars l lit then some (lit.length, l.drop lit.length) else none

/-- Greedy `p+`: a maximal non-empty run of class `p`. -/
def mPlus (p : Char → Bool) (l : List Char) : Option (Nat × List Char) :=
  let run := l.takeWhile p
  if run.length = 0 then none else some (run.length, l.drop run.length)

/-- Greedy `p*`: a maximal (possibly empty) run of class `p`. -/
def mStar (p : Char → Bool) (l : List Char) : Option (Nat × List Char) :=
  let run := l.takeWhile p
  some (run.length, l.drop run.length)

/-- Exactly `k` characters of class `p`. -/
def mRepExact (p : Char → Bool) (k : Nat) (l : List Char) : Option (Nat × List Char) :=
  if (l.take k).length = k ∧ (l.take k).all p then some (k, l.drop k) else none

/-- One character of class `p`. -/
def mClass (p : Char → Bool) (l : List Char) : Option (Nat × List Char) :=
  match l with
  | [] => none
  | c :: cs => if p c then some (1, cs) else none

/-- `_NENI_RE`: `[Nn]eni\s+\d+`. -/
def matchNeni (l : List Char) : Option (Nat × List Char) :=
  match l with
  | [] => none
  | c :: rest =>
    if c = 'N' || c = 'n' then
      (mLit ['e', 'n', 'i'] rest).bind fun a =>
      (mPlus isPySpace a.2).bind fun b =>
      (mPlus isDigitChar b.2).map fun d =>
      (1 + a.1 + b.1 + d.1, d.2)
    else none

/-- `_KOD_RE`: `[Kk]od(?:i|it|in)?\s+\w+`, with the regex engine's
alternative preference (i, it, in, then the empty option). -/
def matchKod (l : List Char) : Option (Nat × List Char) :=
  match l with
  | [] => none
  | c :: rest =>
    if c = 'K' || c = 'k' then
      (mLit ['o', 'd'] rest).bind fun a =>
      [['i'], ['i', 't'], ['i', 'n'], []].findSome? fun suf =>
        (mLit suf a.2).bind fun s =>
        (mPlus isPySpace s.2).bind fun b =>
        (mPlus isWordChar b.2).map fun w =>
        (1 + a.1 + s.1 + b.1 + w.1, w.2)
    else none

/-- `_LIGJ_RE`: `[Ll]igj(?:i|in|it)?\s+[Nn]r\.?\s*[\d/.]+`, with the
alternative preference (i, in, it, empty) and greedy optional dot. -/
def matchLigj (l : List Char) : Option (Nat × List Char) :=
  match l with
  | [] => none
  | c :: rest =>
    if c = 'L' || c = 'l' then
      (mLit ['i', 'g', 'j'] rest).bind fun a =>
      [['i'], ['i', 'n'], ['i', 't'], []].findSome? fun suf =>
        (mLit suf a.2).bind fun s =>
        (mPlus isPySpace s.2).bind fun b =>
        (mClass (fun ch => ch = 'N' || ch = 'n') b.2).bind fun n =>
        (mLit ['r'] n.2).bind fun r =>
        [['.'], []].findSome? fun dot =>
          (mLit dot r.2).bind fun d =>
          (mStar isPySpace d.2).bind fun sp =>
          (mPlus (fun ch => ch.isDigit || ch = '/' || ch = '.') sp.2).map fun num =>
          (1 + a.1 + s.1 + b.1 + n.1 + r.1 + d.1 + sp.1 + num.1, num.2)
    else none

/-- `_DATE_RE`: `\d{1,2}[./]\d{1,2}[./]\d{2,4}`, greedy with
backtracking over the bounded repetitions. -/
def matchDate (l : List Char) : Option (Nat × List Char) :=
  [2, 1].findSome? fun k1 =>
    (mRepExact isDigitChar k1 l).bind fun a =>
    (mClass (fun ch => ch = '.' || ch = '/') a.2).bind fun s1 =>
    [2, 1].findSome? fun k2 =>
      (mRepExact isDigitChar k2 s1.2).bind fun b =>
      (mClass (fun ch => ch = '.' || ch = '/') b.2).bind fun s2 =>
      [4, 3, 2].findSome? fun k3 =>
        (mRepExact isDigitChar k3 s2.2).map fun d =>
        (a.1 + s1.1 + b.1 + s2.1 + d.1, d.2)

/-- `re.findall` for an anchored matcher: scan left to right, consume
non-overlapping matches. -/
def scanAllGo (m : List Char → Option (Nat × List Char)) :
    Nat → List Char → List String
  | 0, _ => []
  | _, [] => []
  | fuel + 1, c :: rest =>
    match m (c :: rest) with
    | some (n, _) =>
      if 0 < n then
        String.mk ((c :: rest).take n) :: scanAllGo m fuel ((c :: rest).drop n)
      else scanAllGo m fuel rest
    | none => scanAllGo m fuel rest

def scanAll (m : List Char → Option (Nat × List Char)) (l : List Char) :
    List String :=
  scanAllGo m l.length l

/-- `re.findall(r'\b\d{2,}\b', s)`: maximal word-character runs that
consist entirely of digits and have length ≥ 2. -/
def numberRuns (s : String) : List String :=
  ((charRuns isWordChar s.toList).filter
    (fun r => 2 ≤ r.length ∧ r.all isDigitChar)).map String.mk

/- ═══════════════ backend/query_expander.py ═══════════════ -/

/-- One entry of the `_LEGAL_DOMAINS` taxonomy. -/
structure LegalDomain where
  id : String
  triggers : List String
  search_terms : List String
deriving Repr, DecidableEq

/-- `_LEGAL_DOMAINS` — the full domain taxonomy from the source. -/
def legalDomains : List LegalDomain :=
  [{ id := "constitutional",
     triggers := ["kushtetut", "kushtetues", "te drejtat themelore",
       "liri", "lirite", "barazi", "demokraci",
       "te drejtat e njeriut", "referendum", "president",
       "gjykate kushtetuese", "amendament"],
     search_terms := ["Kushtetuta e Republikes se Shqiperise",
       "te drejtat dhe lirite themelore kushtetuta",
       "parimet kushtetuese"] },
   { id := "civil",
     triggers := ["civil", "pronesi", "pronesise", "zoterim",
       "kontrat", "detyr", "detyrimi", "demshperblim",
       "trashegim", "trashegimia", "testament",
       "servitut", "barrë", "hipoteke", "peng",
       "send", "shitje", "qera", "huadheni"],
     search_terms := ["Kodi Civil detyrimet kontrata pronesia",
       "e drejta civile detyrimet",
       "trashegimia kontrata Kodi Civil"] },
   { id := "civil_procedure",
     triggers := ["procedur", "procedura civile", "gjykim civil",
       "padi", "paditës", "paditur", "gjykim",
       "apel", "ankim", "ekzekutim", "urdhër ekzekutimi",
       "prove", "deshmitar", "seancë", "vendim gjyqësor",
       "gjykate", "arbitrazh"],
     search_terms := ["Kodi Procedures Civile procedura gjyqesore",
       "padia gjykimi civil ankimi apeli",
       "procedura civile gjykata"] },
   { id := "criminal",
     triggers := ["penal", "krim", "veper penale", "vepra penale",
       "denim", "burg", "gjobe", "ndeshkim",
       "vjedhje", "vrasje", "mashtr", "korrupsion",
       "droge", "trafik", "falsifik", "armë"],
     search_terms := ["Kodi Penal vepra penale denimet",
       "krim veper penale sanksion",
       "Kodi Penal burg gjobe"] },
   { id := "criminal_procedure",
     triggers := ["procedura penale", "hetim", "prokurori",
       "arrestim", "mase siguri", "paraburgim",
       "gjykim penal", "akuz", "ndjekje penale",
       "deshmitar", "ekspert", "gjykate penale"],
     search_terms := ["Kodi Procedures Penale hetimi gjykimi penal",
       "procedura penale arrestimi prokuroria",
       "ndjekja penale masa sigurimit"] },
   { id := "juvenile",
     triggers := ["mitur", "te mitur", "femij", "femije",
       "drejtesia per te mitur", "i mitur", "te miturit",
       "kujdes", "mbrojtje femijeve", "adoleshent"],
     search_terms := ["Kodi Drejtesise Penale per te Mitur",
       "drejtesia per te mitur femije",
       "te miturit vepra penale",
       "mbrojtja e femijeve ne procesin penal"] },
   { id := "military",
     triggers := ["ushtarak", "ushtar", "ushtri", "forcave te armatosura",
       "penal ushtarak", "dezertim", "komandat"],
     search_terms := ["Kodi Penal Ushtarak",
       "vepra penale ushtarake",
       "krime ushtarake forcat e armatosura"] },
   { id := "electoral",
     triggers := ["zgjedh", "zgjedhje", "zgjedhor", "votim",
       "vot", "kandidat", "fushat", "parti",
       "komision zgjedhor", "kqz", "lista"],
     search_terms := ["Kodi Zgjedhor zgjedhjet votimi",
       "procedura zgjedhore kandidatet partite",
       "komisioni qendror zgjedhjeve"] },
   { id := "administrative",
     triggers := ["administrat", "akt administrativ", "procedur administrative",
       "organ publik", "administrate publike",
       "ankimi administrativ", "sherbim publik",
       "vendim administrativ", "leje", "licenc"],
     search_terms := ["Kodi Procedurave Administrative",
       "procedura administrative akti administrativ",
       "ankimi administrativ organi publik",
       "vendimi administrativ ligji administrates"] },
   { id := "family",
     triggers := ["familj", "martese", "martes", "divorc", "shkurorezim",
       "femij", "biresim", "kujdestar", "alimenta",
       "bashkeshort", "prindi", "atesi", "amesi",
       "paternitet", "biresi"],
     search_terms := ["Kodi Familjes martesa divorci",
       "e drejta familjare kujdestaria biresia",
       "alimentat prindi femija"] },
   { id := "labor",
     triggers := ["pun", "pune", "punesim", "punonjes", "punedhenes",
       "kontrat pune", "pagë", "paga", "pushim",
       "sindikat", "grev", "largim", "shkark",
       "sigurim shoqeror", "sigurime"],
     search_terms := ["Kodi Punes marredheniet e punes",
       "kontrata e punes punesimi punedhenes",
       "e drejta e punes paga pushimet"] },
   { id := "road",
     triggers := ["rrugor", "trafik", "automjet", "makine", "shofer",
       "patent", "sinjal", "rruge", "shpejtesi",
       "aksident", "siguri rrugore", "polici rrugor"],
     search_terms := ["Kodi Rrugor rregullat e qarkullimit",
       "qarkullimi rrugor automjete patenta",
       "siguria rrugore aksidente"] },
   { id := "customs",
     triggers := ["doganor", "doganë", "dogane", "import", "eksport",
       "tarif", "mallra", "tregti", "kufir",
       "procedura doganore", "deklarate doganore"],
     search_terms := ["Kodi Doganor procedura doganore",
       "importi eksporti tarifat doganore",
       "deklarata doganore mallra kufiri",
       "tregti nderkombetare doganat"] },
   { id := "railway",
     triggers := ["hekurudh", "hekurudhor", "tren", "transporti hekurudhor",
       "linja hekurudhore", "stacion"],
     search_terms := ["Kodi Hekurudhor transporti hekurudhor",
       "linjat hekurudhore treni"] },
   { id := "aviation",
     triggers := ["ajror", "aviacion", "fluturim", "aeroplan",
       "aeroport", "pilot", "hapesira ajrore"],
     search_terms := ["Kodi Ajror hapesira ajrore aviacion",
       "fluturimi transporti ajror aeroporte"] },
   { id := "maritime",
     triggers := ["detar", "det", "anije", "port", "lundr",
       "transport detar", "ngarkes", "trageti"],
     search_terms := ["Kodi Detar transporti detar",
       "anijet portet lundrimi detar"] },
   { id := "construction",
     triggers := ["ndert", "ndërt", "ndertim", "ndertimi",
       "leje ndertimi", "ndertese", "objekt",
       "konstruksion", "kantijer", "pallat"],
     search_terms := ["legjislacioni per ndertimet leje ndertimi",
       "ndertim ndertesa objekte ndertimore",
       "rregullat e ndertimit"] },
   { id := "cadastre",
     triggers := ["kadastr", "kadaster", "kadastral", "regjist",
       "regjistrim", "pasuri", "pasurite", "toke",
       "ngastre", "certifikat", "hipoteke"],
     search_terms := ["legjislacioni per kadastren regjistrimi",
       "kadaster pasurite e paluajtshme",
       "regjistrimi i pasurive te paluajtshme"] },
   { id := "notary",
     triggers := ["noter", "noteri", "noterial", "akt noterial",
       "vertetim", "legalizim akti", "prokure"],
     search_terms := ["legjislacioni per noterine",
       "akti noterial noter vertetimi",
       "sherbimi noterial dokumentet"] },
   { id := "urban",
     triggers := ["urbanist", "urbanistik", "plan rregullues",
       "plan zhvillimi", "territori", "planifik",
       "zhvillim urban", "harte", "zona"],
     search_terms := ["legjislacioni per urbanistiken",
       "planifikimi i territorit urbanistika",
       "plani rregullues zhvillimi urban"] },
   { id := "domestic_violence",
     triggers := ["dhun", "dhuna", "familje dhune", "mbrojtje",
       "urdher mbrojtje", "viktim", "abuzim",
       "dhuna ne familje", "dhuna ndaj grave",
       "parandalim dhune"],
     search_terms := ["parandalimi mbrojtja dhuna ndaj grave dhuna ne familje",
       "urdhri i mbrojtjes dhuna familjare",
       "ligji kunder dhunes ne familje viktima",
       "masat mbrojtese dhuna familjare"] },
   { id := "legalization",
     triggers := ["legaliz", "legalizim", "informal",
       "ndertim informal", "ndertim pa leje"],
     search_terms := ["legjislacioni per legalizimet",
       "legalizimi i ndertimeve informale",
       "ndertim pa leje legalizim"] },
   { id := "property",
     triggers := ["pasuri", "paluajtshm", "prone", "toke",
       "apartament", "shitblerje", "qera",
       "titull pronesi", "certifikat pronesie",
       "kalim pronesi"],
     search_terms := ["legjislacioni per pasurite e paluajtshme",
       "pronesia e pasurive te paluajtshme",
       "titull pronesie kalimi i pronesise"] },
   { id := "civil_service",
     triggers := ["nepunes", "nepunesi", "nepunesine",
       "administrat publik", "sherbyes civil",
       "funksionar", "nenpunes", "prurje"],
     search_terms := ["ligji per nepunesine civile",
       "nepunesi civile administrata publike",
       "statusi i nepunesit civil",
       "marredheniet e punes ne sherbimin civil"] },
   { id := "concessions",
     triggers := ["koncesion", "partneritet", "publik privat",
       "ppp", "kontrat koncesioni"],
     search_terms := ["ligji per koncesionet partneritetin publik privat",
       "kontrata e koncesionit PPP"] },
   { id := "hunting",
     triggers := ["gjueti", "gjah", "gjuajt", "kafshe",
       "gjueti e egra", "arme gjuetie"],
     search_terms := ["ligji per gjuetine",
       "gjuetia rregullat e gjuetise",
       "kafshet e egra gjuetia"] },
   { id := "gender",
     triggers := ["gjinor", "barazi gjinore", "diskriminim",
       "grua", "burrë", "gjini", "femër", "mashkull"],
     search_terms := ["ligji per barazine gjinore",
       "barazia gjinore diskriminimi",
       "te drejtat e grave barazia"] },
   { id := "co_ownership",
     triggers := ["bashkepronesi", "bashkepronar",
       "ndertesa", "pallat", "apartament",
       "administrim ndertese", "tarrace",
       "rregullore ndertese", "keste"],
     search_terms := ["ligji per administrimin bashkepronesise ndertesa",
       "bashkepronaresia ne ndertesa pallat",
       "administrimi i nderteses bashkepronar",
       "rregullat e bashkepronesise ndertesa"] }]

/-- `pyStartsWith s pre` is `s.startswith(pre)`. -/
def pyStartsWith (s pre : String) : Bool :=
  startsWithChars s.toList pre.toList

/-- Stable insertion of `a` into a descending-sorted list (Python's
stable sort places later elements after equal keys). -/
def insertDescBy {α β : Type} [LinearOrder β] (key : α → β) (a : α) :
    List α → List α
  | [] => [a]
  | x :: xs => if key a < key x then x :: insertDescBy key a xs else a :: x :: xs

/-- Stable descending sort by key (`list.sort(key=..., reverse=True)`). -/
def sortDescBy {α β : Type} [LinearOrder β] (key : α → β) : List α → List α
  | [] => []
  | a :: rest => insertDescBy key a (sortDescBy key rest)

/-- `_detect_domains` — score every domain by trigger hits (substring
hit = 2, prefix-overlap hit = 1), keep positive scores, stable-sort
descending by score.  `set(re.findall(...))` is modelled in first-seen
order; it is consulted only through `any`, so order is irrelevant. -/
def detectDomains (question : String) : List LegalDomain :=
  let qLower := normalizeQuery question
  let qWords := dedupFirstSeen (wordRuns 3 qLower)
  let scored := legalDomains.filterMap (fun d =>
    let hits := d.triggers.foldl (fun acc trigger =>
      let tLower := pyLower trigger
      if pyContains qLower tLower then acc + 2
      else if qWords.any (fun w =>
          3 ≤ w.length && (pyStartsWith tLower w || pyStartsWith w tLower)) then
        acc + 1
      else acc) 0
    if 0 < hits then some (hits, d) else none)
  (sortDescBy (fun x => x.1) scored).map Prod.snd

/-- `_extract_entities` — article references, law numbers, codes, dates
and bare numbers; `list(set(...))` modelled in first-seen order. -/
def extractEntities (question : String) : List String :=
  dedupFirstSeen
    (scanAll matchNeni question.toList
      ++ scanAll matchLigj question.toList
      ++ scanAll matchKod question.toList
      ++ scanAll matchDate question.toList
      ++ numberRuns question)

/-- The stopword list of `_extract_keywords`, exactly as written in the
source (repeated words are harmless for membership). -/
def expanderStopwords : List String :=
  ["dhe", "ose", "per", "nga", "nje", "tek", "te", "ne", "me", "se", "ka",
   "si", "do", "jane", "eshte", "nuk", "qe", "i", "e",
   "ky", "kjo", "keto", "ato", "por", "nese", "edhe", "mund", "duhet",
   "cfare", "cilat", "cili", "si", "eshte",
   "jane", "kane", "ka", "nje"]

/-- `_extract_keywords`: lowercased words of ≥ 3 characters that are
not stopwords. -/
def extractKeywords (question : String) : List String :=
  (wordRuns 3 (pyLower question)).filter
    (fun w => !expanderStopwords.contains w)

/-- `_fallback_variants` — deterministic variants used when the
language-model expansion call fails. -/
def fallbackVariants (question : String) : List String :=
  let clean := pyStrip (pyRStripChars ['?', '!', '.'] question)
  let v1 := if clean ≠ question then [clean] else []
  let words := extractKeywords question
  let v2 := if 3 ≤ words.length then
      [joinSpace (words.take 5), joinSpace (words.take 4).reverse]
    else []
  let v3 := ((detectDomains question).take 2).flatMap
    (fun d => d.search_terms.take 2)
  v1 ++ v2 ++ v3

/-- The diacritical-expansion step of `expand_query`: for one keyword,
append the first rewritten query that is new (case-insensitively). -/
def diacAppend (question : String) (variants : List String) (kw : String) :
    List String :=
  match (expandDiacriticalVariants kw).find? (fun dv =>
      dv != kw &&
      !((variants.map pyLower).contains (pyReplace (pyLower question) kw dv))) with
  | some dv => variants ++ [pyReplace (pyLower question) kw dv]
  | none => variants

/-- The final case-insensitive deduplication of `expand_query`:
keep a variant when its lowercased-stripped key is non-empty and unseen. -/
def dedupByKey (seen : List String) : List String → List String
  | [] => []
  | v :: vs =>
    let k := pyStrip (pyLower v)
    if k ≠ "" ∧ k ∉ seen then v :: dedupByKey (k :: seen) vs
    else dedupByKey seen vs

/-- The variant accumulation of `expand_query` for an already-stripped,
non-empty question: deterministic normalizations, entity and keyword
variants, domain search-term injection, the language-model variants
(or the deterministic fallback when that call raised), and the
diacritical rewrites. -/
def expandVariantsRaw (llm : Except Unit (List String)) (question : String) :
    List String :=
  let norm := normalizeQuery question
  let v1 := if norm ≠ pyLower question then [norm] else []
  let legalNorm := normalizeLegalQuery question
  let v2 := if legalNorm ≠ norm then [legalNorm] else []
  let entities := extractEntities question
  let v3 := if entities ≠ [] then [joinSpace entities] else []
  let keywords := extractKeywords question
  let v4 := if 2 ≤ keywords.length then [joinSpace keywords] else []
  let v5 := ((detectDomains question).take 2).flatMap (fun d => d.search_terms)
  let llmVariants :=
    match llm with
    | Except.ok parsed =>
      parsed.filterMap (fun v =>
        if pyStrip v ≠ "" then some (pyStrip v) else none)
    | Except.error _ => fallbackVariants question
  let base := question :: (v1 ++ v2 ++ v3 ++ v4 ++ v5 ++ llmVariants)
  (keywords.take 4).foldl (diacAppend question) base

/-- `expand_query` (backend/query_expander.py).  The language-model call
is an oracle: `Except.ok parsed` models a successful call whose JSON
content unwraps to the string list `parsed` (the `variants`/`queries`/…
key unwrapping happens inside the opaque parse); `Except.error`
models any exception raised by the call, which the source catches. -/
def expandQuery (llm : Except Unit (List String)) (question0 : String) :
    List String :=
  let question := pyStrip question0
  if question = "" then [question]
  else (dedupByKey [] (expandVariantsRaw llm question)).take 18

/- ═══════════════ backend/hybrid_search.py ═══════════════ -/

/-- A result row of the Vector Search Adapter
(`vector_store.search_documents`). -/
structure VectorChunk where
  text : String := ""
  distance : ℚ := 1
  similarity : ℚ := 0
  doc_id : String := ""
  user_id : String := ""
  article : String := ""
  pages : String := ""
  title : String := ""
  law_number : String := ""
  law_date : String := ""
  char_count : Option Nat := none
  chunk_index : Int := 0
deriving Repr, DecidableEq

/-- A result row of the Keyword Search Adapter
(`database.keyword_search_chunks`). -/
structure KeywordChunk where
  content : String := ""
  document_id : Int := 0
  user_id : Int := 0
  article : String := ""
  pages : String := ""
  page_start : Int := 0
  chunk_index : Int := 0
  char_count : Option Nat := none
  fts_rank : ℚ := 0
deriving Repr, DecidableEq

/-- A candidate record as built by `_make_candidate` /
`_make_candidate_kw`, including the multi-query bookkeeping fields
(`query_hits` defaults to 1, matching `.get("query_hits", 1)`). -/
structure Candidate where
  text : String := ""
  doc_id : String := ""
  user_id : String := ""
  article : String := ""
  pages : String := ""
  page_start : Int := 0
  title : String := ""
  law_number : String := ""
  law_date : String := ""
  chunk_index : Int := 0
  char_count : Nat := 0
  similarity : ℚ := 0
  distance : ℚ := 1
  vector_rank : Option Nat := none
  keyword_rank : Option Nat := none
  rrf_score : ℚ := 0
  boost : ℚ := 0
  final_score : ℚ := 0
  sources : List String := []
  query_hits : Nat := 1
  found_by_queries : List Nat := []
  multi_query_boost : ℚ := 0
deriving Repr, DecidableEq

/-- Python `int(s)` on a decimal literal with optional sign/whitespace. -/
def pyParseInt (s : String) : Option Int :=
  let t := (pyStrip s).toList
  let signAndDigits : Int × List Char :=
    match t with
    | '-' :: rest => (-1, rest)
    | '+' :: rest => (1, rest)
    | l => (1, l)
  let digits := signAndDigits.2
  if digits ≠ [] ∧ digits.all isDigitChar then
    some (signAndDigits.1 *
      (digits.foldl (fun acc c => acc * 10 + ((c.toNat : Int) - 48)) 0))
  else none

/-- `_parse_page_start`: first comma-separated component parsed as an
integer, 0 on failure or empty input. -/
def parsePageStart (pages : String) : Int :=
  if pages = "" then 0
  else
    match pyParseInt ((pages.splitOn ",").headD "") with
    | some n => n
    | none => 0

/-- `_make_candidate` (vector-sourced candidate). -/
def makeCandidate (chunk : VectorChunk) (vectorRank : Nat) : Candidate :=
  { text := chunk.text
    doc_id := chunk.doc_id
    user_id := chunk.user_id
    article := chunk.article
    pages := chunk.pages
    page_start := parsePageStart chunk.pages
    title := chunk.title
    law_number := chunk.law_number
    law_date := chunk.law_date
    chunk_index := chunk.chunk_index
    char_count := chunk.char_count.getD chunk.text.length
    similarity := chunk.similarity
    distance := chunk.distance
    vector_rank := some vectorRank
    keyword_rank := none
    rrf_score := 0
    boost := 0
    final_score := 0
    sources := ["vector"] }

/-- `_make_candidate_kw` (keyword-sourced candidate). -/
def makeCandidateKw (kw : KeywordChunk) (keywordRank : Nat) : Candidate :=
  { text := kw.content
    doc_id := toString kw.document_id
    user_id := toString kw.user_id
    article := kw.article
    pages := kw.pages
    page_start := kw.page_start
    title := ""
    law_number := ""
    law_date := ""
    chunk_index := kw.chunk_index
    char_count := kw.char_count.getD kw.content.length
    similarity := 0
    distance := 1
    vector_rank := none
    keyword_rank := some keywordRank
    rrf_score := 0
    boost := 0
    final_score := 0
    sources := ["keyword"] }

/-- `_chunk_key`. -/
def vChunkKey (c : VectorChunk) : String :=
  c.doc_id ++ "_" ++ toString c.chunk_index

/-- `_chunk_key_kw`. -/
def kwChunkKey (k : KeywordChunk) : String :=
  toString k.document_id ++ "_" ++ toString k.chunk_index

/-- `_candidate_key`. -/
def candidateKey (c : Candidate) : String :=
  c.doc_id ++ "_" ++ toString c.chunk_index

/-- The candidate pool (a Python dict) as an insertion-ordered
association list. -/
abbrev Pool := List (String × Candidate)

/-- In-place update of the value stored at `key` (dict mutation keeps
insertion order). -/
def poolUpdate (key : String) (f : Candidate → Candidate) : Pool → Pool
  | [] => []
  | (k, c) :: rest =>
    if k = key then (k, f c) :: rest else (k, c) :: poolUpdate key f rest

/-- The in-place mutation applied when a vector result rediscovers an
existing candidate: set the vector rank, record the source, keep the
higher similarity. -/
def addVectorUpdate (rank : Nat) (chunk : VectorChunk) (cand : Candidate) :
    Candidate :=
  let cand := { cand with vector_rank := some rank }
  let cand :=
    if cand.sources.contains "vector" then cand
    else { cand with sources := cand.sources ++ ["vector"] }
  if cand.similarity < chunk.similarity then
    { cand with similarity := chunk.similarity, distance := chunk.distance }
  else cand

/-- One step of the vector-result merge loop of `hybrid_search`. -/
def addVector (pool : Pool) (rank : Nat) (chunk : VectorChunk) : Pool :=
  let key := vChunkKey chunk
  match pool.lookup key with
  | none => pool ++ [(key, makeCandidate chunk rank)]
  | some _ => poolUpdate key (addVectorUpdate rank chunk) pool

/-- The in-place mutation applied when a keyword result rediscovers an
existing candidate: set the keyword rank and record the source. -/
def addKeywordUpdate (rank : Nat) (cand : Candidate) : Candidate :=
  let cand := { cand with keyword_rank := some rank }
  if cand.sources.contains "keyword" then cand
  else { cand with sources := cand.sources ++ ["keyword"] }

/-- One step of the keyword-result merge loop of `hybrid_search`. -/
def addKeyword (pool : Pool) (rank : Nat) (kw : KeywordChunk) : Pool :=
  let key := kwChunkKey kw
  match pool.lookup key with
  | none => pool ++ [(key, makeCandidateKw kw rank)]
  | some _ => poolUpdate key (addKeywordUpdate rank) pool

/-- Step 3 of `hybrid_search`: build the candidate pool from both
adapters' ranked results (ranks are 1-based). -/
def buildPool (vres : List VectorChunk) (kres : List KeywordChunk) : Pool :=
  let p1 := vres.enum.foldl (fun pool ic => addVector pool (ic.1 + 1) ic.2) []
  kres.enum.foldl (fun pool ic => addKeyword pool (ic.1 + 1) ic.2) p1

/-- Step 4 of `hybrid_search`: the base weighted RRF score of one
candidate (`score += weight * (1.0 / (rrf_k + rank))` for each
present rank, with `rrf_k = 60`). -/
def rrfScoreOf (vW kW : ℚ) (c : Candidate) : ℚ :=
  let s0 : ℚ := 0
  let s1 :=
    match c.vector_rank with
    | some r => s0 + vW * (1 / (60 + (r : ℚ)))
    | none => s0
  match c.keyword_rank with
  | some r => s1 + kW * (1 / (60 + (r : ℚ)))
  | none => s1

/-- `round(x, 6)` — Python rounds half to even; modelled exactly on
rationals (the float representation error is not modelled). -/
def roundQ6 (q : ℚ) : ℚ :=
  let s := q * 1000000
  let f : ℤ := ⌊s⌋
  let frac := s - (f : ℚ)
  let r : ℤ :=
    if 1 / 2 < frac then f + 1
    else if frac < 1 / 2 then f
    else if f % 2 = 0 then f else f + 1
  (r : ℚ) / 1000000

/-- The hybrid-module stopword list (`hybrid_search._ALBANIAN_STOPWORDS`). -/
def hybridStopwords : List String :=
  ["dhe", "ose", "per", "nga", "nje", "tek", "te", "ne", "me", "se", "ka",
   "si", "do", "jane", "eshte", "nuk", "qe", "i", "e",
   "ky", "kjo", "keto", "ato", "por", "nese", "edhe", "mund", "duhet"]

/-- `_extract_query_keywords`: lowercased words of ≥ 2 characters minus
stopwords. -/
def extractQueryKeywords (query : String) : List String :=
  (wordRuns 2 (pyLower query)).filter (fun w => !hybridStopwords.contains w)

/-- `[Nn]eni\s+(\d+)` with its capture group: consumed length and the
captured digit string. -/
def matchNeniGrp (l : List Char) : Option (Nat × List Char) :=
  match l with
  | [] => none
  | c :: rest =>
    if c = 'N' || c = 'n' then
      (mLit ['e', 'n', 'i'] rest).bind fun a =>
      (mPlus isPySpace a.2).bind fun b =>
      (mPlus isDigitChar b.2).map fun d =>
      (1 + a.1 + b.1 + d.1, b.2.take d.1)
    else none

/-- `re.findall` returning the capture group of each match. -/
def scanAllGrpGo (m : List Char → Option (Nat × List Char)) :
    Nat → List Char → List String
  | 0, _ => []
  | _, [] => []
  | fuel + 1, c :: rest =>
    match m (c :: rest) with
    | some (n, grp) =>
      if 0 < n then String.mk grp :: scanAllGrpGo m fuel ((c :: rest).drop n)
      else scanAllGrpGo m fuel rest
    | none => scanAllGrpGo m fuel rest

def scanAllGrp (m : List Char → Option (Nat × List Char)) (l : List Char) :
    List String :=
  scanAllGrpGo m l.length l

/-- `_extract_neni_numbers`: the article numbers named in the query
(a Python `set`, modelled in first-seen order; used only through
membership). -/
def extractNeniNumbers (query : String) : List String :=
  dedupFirstSeen (scanAllGrp matchNeniGrp query.toList)

/-- `re.findall(r'\d+', s)`: maximal digit runs. -/
def digitRuns (s : String) : List String :=
  (charRuns isDigitChar s.toList).map String.mk

/-- `re.search(r'\bNeni\s+\d+', text)`: an occurrence of capital-N
`Neni`, a space run and digits starting at a word boundary. -/
def hasNeniRef (text : String) : Bool :=
  go text.toList true
where
  neniHere (l : List Char) : Bool :=
    ((mLit ['N', 'e', 'n', 'i'] l).bind fun a =>
      (mPlus isPySpace a.2).bind fun b =>
      mPlus isDigitChar b.2).isSome
  go : List Char → Bool → Bool
    | [], _ => false
    | c :: rest, atBoundary =>
      (atBoundary && neniHere (c :: rest)) || go rest (!isWordChar c)

/-- Step 5 of `hybrid_search`: the post-RRF boost of one candidate
(exact-keyword ratio ≤ 0.005, article-number match +0.02, `Neni`
presence +0.001). -/
def boostOf (queryKeywords : List String) (neniNums : List String)
    (c : Candidate) : ℚ :=
  let textLower := pyLower c.text
  let article := pyStrip c.article
  let b1 : ℚ :=
    if queryKeywords ≠ [] then
      ((queryKeywords.countP (fun kw => pyContains textLower kw) : ℚ)
        / (queryKeywords.length : ℚ)) * 0.005
    else 0
  let b2 : ℚ :=
    if neniNums ≠ [] ∧ article ≠ "" ∧
        (digitRuns article).any (fun n => neniNums.contains n) then 0.02
    else 0
  let b3 : ℚ := if hasNeniRef c.text then 0.001 else 0
  b1 + b2 + b3

/-- Steps 4–5 applied to one candidate: store the RRF score, the
rounded boost, and `final_score = rrf_score + boost` (the unrounded
boost, as in the source). -/
def scoreCandidate (vW kW : ℚ) (queryKeywords neniNums : List String)
    (c : Candidate) : Candidate :=
  let c := { c with rrf_score := rrfScoreOf vW kW c }
  let b := boostOf queryKeywords neniNums c
  { c with boost := roundQ6 b, final_score := c.rrf_score + b }

/-- `boosted_articles`: the non-empty article labels of the top-3 pool
entries (a Python `set`, modelled in first-seen order; used only
through membership). -/
def boostedArticlesOf (pool : List Candidate) : List String :=
  (pool.take 3).foldl (fun acc c =>
    let a := pyStrip c.article
    if a ≠ "" ∧ a ∉ acc then acc ++ [a] else acc) []

/-- Phase 1 of `_apply_article_cohesion`: add every pool chunk from a
boosted article, breaking once `final_k` entries are selected. -/
def cohesionPhase1 (boosted : List String) (k : Nat) :
    List Candidate → List Candidate → List String →
    (List Candidate × List String)
  | [], sel, keys => (sel, keys)
  | c :: rest, sel, keys =>
    if pyStrip c.article ∈ boosted then
      if candidateKey c ∉ keys then
        let sel' := sel ++ [c]
        let keys' := keys ++ [candidateKey c]
        if k ≤ sel'.length then (sel', keys')
        else cohesionPhase1 boosted k rest sel' keys'
      else cohesionPhase1 boosted k rest sel keys
    else cohesionPhase1 boosted k rest sel keys

/-- Phase 2 of `_apply_article_cohesion`: fill remaining slots with the
best-ranked non-duplicate chunks. -/
def cohesionPhase2 (k : Nat) :
    List Candidate → List Candidate → List String → List Candidate
  | [], sel, _ => sel
  | c :: rest, sel, keys =>
    if k ≤ sel.length then sel
    else if candidateKey c ∉ keys then
      cohesionPhase2 k rest (sel ++ [c]) (keys ++ [candidateKey c])
    else cohesionPhase2 k rest sel keys

/-- `_apply_article_cohesion` (backend/hybrid_search.py). -/
def applyArticleCohesion (pool : List Candidate) (finalK : Nat) :
    List Candidate :=
  if pool = [] then []
  else
    let boosted := boostedArticlesOf pool
    let s1 :=
      if boosted ≠ [] then cohesionPhase1 boosted finalK pool [] []
      else ([], [])
    let sel2 := cohesionPhase2 finalK pool s1.1 s1.2
    (sortDescBy (fun c => c.final_score) sel2).take finalK

/-- `final_k or settings.HYBRID_FINAL_K` (Python falsiness: `None`
and `0` both fall back to the default). -/
def orDefault (kOpt : Option Nat) (dflt : Nat) : Nat :=
  match kOpt with
  | some k => if k = 0 then dflt else k
  | none => dflt

/-- The ranking core of `hybrid_search` (backend/hybrid_search.py):
given both adapters' ranked results, build the pool, compute RRF
scores and boosts, sort, take the wide 3×`final_k` pool, and apply
article cohesion.  The adapter calls themselves and the returned
debug/timing envelope are external to this core. -/
def scoredPool (s : Settings) (query : String) (vres : List VectorChunk)
    (kres : List KeywordChunk) : Pool :=
  (buildPool vres kres).map (fun p =>
    (p.1, scoreCandidate s.HYBRID_VECTOR_WEIGHT s.HYBRID_KEYWORD_WEIGHT
      (extractQueryKeywords query) (extractNeniNumbers query) p.2))

def hybridSearchChunks (s : Settings) (query : String)
    (finalKOpt : Option Nat) (vres : List VectorChunk)
    (kres : List KeywordChunk) : List Candidate :=
  let finalK := orDefault finalKOpt s.HYBRID_FINAL_K
  let scored := scoredPool s query vres kres
  let allRanked := sortDescBy (fun c => c.final_score) (scored.map Prod.snd)
  applyArticleCohesion (allRanked.take (finalK * 3)) finalK

/- ═══════════════ multi_query_hybrid_search ═══════════════ -/

/-- The outcome of one per-variant `hybrid_search` task as observed by
`asyncio.gather(..., return_exceptions=True)`: either the chunk list or
a raised exception. -/
abbrev VariantOutcome := Except Unit (List Candidate)

/-- Replace a raised per-variant exception by an empty success. -/
def errToEmpty (r : VariantOutcome) : VariantOutcome :=
  match r with
  | Except.error _ => Except.ok []
  | Except.ok l => Except.ok l

/-- The in-place mutation applied when a later variant rediscovers an
already-merged candidate: bump the hit count, record the variant, keep
the best similarity and the best prior score. -/
def mergeUpdate (i : Nat) (chunk : Candidate) (ex : Candidate) : Candidate :=
  let ex := { ex with query_hits := ex.query_hits + 1,
                      found_by_queries := ex.found_by_queries ++ [i] }
  let ex :=
    if ex.similarity < chunk.similarity then
      { ex with similarity := chunk.similarity, distance := chunk.distance }
    else ex
  if ex.final_score < chunk.final_score then
    { ex with final_score := chunk.final_score,
              rrf_score := chunk.rrf_score, boost := chunk.boost }
  else ex

/-- One chunk of variant `i` merged into the global candidate pool. -/
def mergeChunk (i : Nat) (pool : Pool) (chunk : Candidate) : Pool :=
  let key := candidateKey chunk
  match pool.lookup key with
  | none =>
    pool ++ [(key, { chunk with query_hits := 1, found_by_queries := [i] })]
  | some _ => poolUpdate key (mergeUpdate i chunk) pool

/-- The merge loop of `multi_query_hybrid_search`: failed variants are
logged and skipped, successful variants' chunks are merged in order. -/
def mergeResults (results : List VariantOutcome) : Pool :=
  results.enum.foldl (fun pool ir =>
    match ir.2 with
    | Except.error _ => pool
    | Except.ok chunks => chunks.foldl (mergeChunk ir.1) pool) []

/-- The multi-query-hit boost:
`0.012 * (hits - 1) / max(total_queries - 1, 1)`. -/
def multiQueryBoost (hits nQueries : Nat) : ℚ :=
  0.012 * (((hits : ℚ) - 1) / max (((nQueries : ℚ)) - 1) 1)

/-- The boost loop of `multi_query_hybrid_search`: store the rounded
boost and add the unrounded boost to `final_score`. -/
def applyMultiBoost (nQueries : Nat) (pool : List Candidate) :
    List Candidate :=
  pool.map (fun c =>
    let mb := multiQueryBoost c.query_hits nQueries
    { c with multi_query_boost := roundQ6 mb, final_score := c.final_score + mb })

/-- The ranking core of `multi_query_hybrid_search`
(backend/hybrid_search.py): fan out over the variants (the per-variant
search is the oracle `search`; a `Except.error` value models a raised
exception), merge and deduplicate, apply the multi-query boost, sort,
and re-apply article cohesion on the wide 3×`final_k` pool. -/
def multiQueryChunks (s : Settings) (search : String → VariantOutcome)
    (queries : List String) (finalKOpt : Option Nat) : List Candidate :=
  let finalK := orDefault finalKOpt s.MQ_FINAL_K
  let results := queries.map search
  let pool := (mergeResults results).map Prod.snd
  let boosted := applyMultiBoost queries.length pool
  let ranked := sortDescBy (fun c => c.final_score) boosted
  applyArticleCohesion (ranked.take (finalK * 3)) finalK

/-- The settings save/override/restore frame of
`multi_query_hybrid_search` (lines 373–433): `HYBRID_FETCH_K` and
`HYBRID_FINAL_K` are overridden to the multi-query fetch width for the
duration of the fan-out and restored in a `finally` block; `body`
models everything inside the `try` (its `Except.error` value models an
exception escaping the `try` block). -/
def multiQuerySettingsFrame (fetchKOpt : Option Nat)
    (body : Settings → VariantOutcome) (s : Settings) :
    VariantOutcome × Settings :=
  let fetchK := orDefault fetchKOpt s.MQ_FETCH_K
  let overridden := { s with HYBRID_FETCH_K := fetchK, HYBRID_FINAL_K := fetchK }
  let r := body overridden
  (r, { overridden with HYBRID_FETCH_K := s.HYBRID_FETCH_K,
                        HYBRID_FINAL_K := s.HYBRID_FINAL_K })

/- ═══════════════ backend/chat.py ═══════════════ -/

def NO_CONTEXT_RESPONSE : String :=
  "Nuk mund ta konfirmoj këtë nga dokumentet e disponueshme."

def SUGGEST_REPHRASE : String :=
  "Provoni të riformuloni pyetjen ose zgjidhni një dokument specifik."

/-- `_is_refusal`: the first 300 characters of the lowercased answer
contain a known refusal phrase. -/
def isRefusal (answer : String) : Bool :=
  let lower := String.mk ((pyLower answer).toList.take 300)
  ["nuk mund ta konfirmoj", "nuk gjendet", "nuk ka informacion",
   "dokumentet e disponueshme", "dokumentet e ngarkuara"].any
    (fun p => pyContains lower p)

/-- `max(c.get("similarity", 0) for c in chunks)` (callers guarantee a
non-empty list; defined as 0 on the empty list). -/
def maxSimilarity (chunks : List Candidate) : ℚ :=
  match chunks.map (fun c => c.similarity) with
  | [] => 0
  | x :: xs => xs.foldl max x

/-- The no-chunks / confidence-gate segment of `generate_answer`
(backend/chat.py lines 154–200): decide between the no-context
response, the low-confidence refusal (`_low_confidence_response`'s
answer string, produced with no language-model call), and proceeding
to answer generation.  `llm ()` is the draft produced by the
language-model call; the returned flag records whether that call was
made. -/
def answerStage (s : Settings) (chunks : List Candidate)
    (llm : Unit → String) : String × Bool :=
  if chunks = [] then (NO_CONTEXT_RESPONSE, false)
  else
    let hasVectorResults := chunks.any (fun c => 0 < c.similarity)
    let topSimilarity := maxSimilarity chunks
    if hasVectorResults ∧ topSimilarity < s.CONFIDENCE_MIN_SIMILARITY then
      (NO_CONTEXT_RESPONSE ++ "\n\n" ++ SUGGEST_REPHRASE, false)
    else
      (llm (), true)

/- ═══════════════ the coverage self-check loop ═══════════════ -/

/-- The external observations of one coverage pass: whether the
verdict call raised, the parsed verdict fields (with the source's
`.get` defaults), the chunk keys returned by the per-gap-query
retrieval, whether the regeneration call raised, and the regenerated
answer. -/
structure PassInput where
  covCheckFails : Bool := false
  status : String := "COMPLETE"
  coverage_pct : ℚ := 100
  gap_queries : List String := []
  retrieved : String → List String := fun _ => []
  regenFails : Bool := false
  newAnswer : String := ""

/-- The loop-relevant outcome of `_coverage_check_iteration`. -/
inductive CovOutcome where
  | complete
  | gapsNoUpdate
  | updated (newAnswer : String)
  | checkError
deriving Repr, DecidableEq

/-- The gap-retrieval dedup loop: each incoming chunk key not already
in `existing_keys` is added to it and collected as an extra chunk. -/
def collectNewKeys (keys : List String) (incoming : List String) :
    List String × List String :=
  incoming.foldl (fun acc k =>
    if k ∈ acc.2 then acc else (acc.1 ++ [k], acc.2 ++ [k])) ([], keys)

/-- `_coverage_check_iteration` (backend/chat.py), reduced to its
loop-relevant behaviour: verdict classification, gap retrieval
deduplicated against `existing_keys` (which it mutates), and the
outcome used by the caller's loop.  A regeneration failure returns
status COMPLETE, as in the source. -/
def coverageCheckIteration (p : PassInput) (existingKeys : List String) :
    CovOutcome × List String :=
  if p.covCheckFails then (CovOutcome.checkError, existingKeys)
  else if p.status = "COMPLETE" ∨ 95 ≤ p.coverage_pct then
    (CovOutcome.complete, existingKeys)
  else if p.gap_queries = [] then (CovOutcome.gapsNoUpdate, existingKeys)
  else
    let incoming := (p.gap_queries.take 4).flatMap p.retrieved
    let ek := collectNewKeys existingKeys incoming
    if ek.1 = [] then (CovOutcome.gapsNoUpdate, ek.2)
    else if p.regenFails then (CovOutcome.complete, ek.2)
    else (CovOutcome.updated p.newAnswer, ek.2)

/-- The coverage loop of `generate_answer` (backend/chat.py lines
224–273): `for pass_num in range(1, max_passes + 1)`, breaking on a
COMPLETE verdict or when no new evidence was found, carrying the
evolving answer draft and the accumulated `existing_keys`.  Returns
the final answer and the number of passes executed. -/
def coverageLoopGo (oracle : Nat → PassInput) (maxPasses : Nat) :
    Nat → Nat → String → List String → Nat → String × Nat
  | 0, _, answer, _, count => (answer, count)
  | fuel + 1, passNum, answer, keys, count =>
    if maxPasses < passNum then (answer, count)
    else
      match coverageCheckIteration (oracle passNum) keys with
      | (CovOutcome.complete, _) => (answer, count + 1)
      | (CovOutcome.updated a, keys') =>
        coverageLoopGo oracle maxPasses fuel (passNum + 1) a keys' (count + 1)
      | (CovOutcome.gapsNoUpdate, _) => (answer, count + 1)
      | (CovOutcome.checkError, _) => (answer, count + 1)

def coverageLoop (oracle : Nat → PassInput) (maxPasses : Nat)
    (passNum : Nat) (answer : String) (keys : List String) (count : Nat) :
    String × Nat :=
  coverageLoopGo oracle maxPasses (maxPasses + 1 - passNum) passNum answer
    keys count

/-- The coverage loop as entered by `generate_answer`, starting at
pass 1 with the first draft and the keys of the already-used chunks. -/
def runCoverageLoop (oracle : Nat → PassInput) (maxPasses : Nat)
    (answer0 : String) (keys0 : List String) : String × Nat :=
  coverageLoop oracle maxPasses 1 answer0 keys0 0

/- ═══════════════ concrete fixtures for instantiations ═══════════════ -/

/-- A coverage-pass oracle that always returns a COMPLETE verdict. -/
def passAllComplete : Nat → PassInput := fun _ => {}

/-- A coverage pass reporting gaps whose retrieval finds one new chunk. -/
def passGapsNew : PassInput :=
  { status := "GAPS", coverage_pct := 50, gap_queries := ["kerkim 1"],
    retrieved := fun _ => ["1_0"], newAnswer := "draft two" }

/-- An oracle: gaps with new evidence on pass 1, COMPLETE afterwards. -/
def passOracle1 : Nat → PassInput :=
  fun n => if n = 1 then passGapsNew else {}

/-- Fixture: a vector-sourced result row. -/
def wVec : VectorChunk :=
  { text := "Neni 57 trashegimia", doc_id := "1", chunk_index := 0,
    similarity := 0.5, distance := 0.5, article := "57" }

/-- Fixture: a keyword-sourced result row with a different identity. -/
def wKw : KeywordChunk :=
  { content := "tekst fjalekyc", document_id := 2, chunk_index := 3,
    article := "", fts_rank := 0.7 }

/-- Fixtures for the cohesion claim: two article-57 siblings and an
article-58 chunk ranked between them. -/
def c4Top : Candidate :=
  { text := "a", doc_id := "1", chunk_index := 0, article := "57",
    final_score := 0.05 }

def c4Mid : Candidate :=
  { text := "b", doc_id := "1", chunk_index := 9, article := "58",
    final_score := 0.04 }

def c4Sibling : Candidate :=
  { text := "c", doc_id := "1", chunk_index := 2, article := "57",
    final_score := 0.03 }

/-- Fixture: a candidate as merged from one multi-query variant. -/
def c5Cand : Candidate :=
  { text := "t", doc_id := "1", chunk_index := 0, final_score := 0.02 }

/-- Fixture: a vector-sourced chunk below the confidence floor. -/
def c6LowSim : Candidate :=
  { text := "t", doc_id := "1", sources := ["vector"],
    similarity := 0.2, distance := 0.8 }

/-- Fixture: a vector-sourced chunk with similarity exactly 0
(cosine distance 1), which the gate's `similarity > 0` test misses. -/
def c6ZeroSim : Candidate :=
  { text := "t", doc_id := "1", sources := ["vector"],
    similarity := 0, distance := 1 }

/-- Fixture: a keyword-only chunk (similarity 0 by construction). -/
def c6Kw : Candidate :=
  { text := "t", doc_id := "2", sources := ["keyword"], similarity := 0 }

/-- Fixture: a stitcher chunk whose `text` key is present but empty. -/
def c9Chunk : StitchChunk :=
  { text := some "", content := some "abc", chunk_index := 7 }

/- ═══════════════════════════════════════════════════════════════════
   THEOREMS
   ═══════════════════════════════════════════════════════════════════ -/

/- ───────────── character and whitespace lemmas ───────────── -/

theorem isPySpace_pyLowerChar (c : Char) :
    isPySpace (pyLowerChar c) = isPySpace c := by
  unfold pyLowerChar
  by_cases h1 : c = 'Ë'
  · subst h1; decide
  · by_cases h2 : c = 'Ç'
    · subst h2; decide
    · simp only [h1, h2, if_false]
      unfold asciiLowerChar
      by_cases h3 : (65 ≤ c.toNat && c.toNat ≤ 90) = true
      · simp only [h3, if_true]
        have hr : 65 ≤ c.toNat ∧ c.toNat ≤ 90 := by simpa using h3
        have hres : isPySpace (Char.ofNat (c.toNat + 32)) = false := by
          generalize hgen : c.toNat + 32 = n
          have hb1 : 97 ≤ n := by omega
          have hb2 : n ≤ 122 := by omega
          interval_cases n <;> decide
        have horig : isPySpace c = false := by
          simp only [isPySpace]
          simp only [Bool.or_eq_false_iff, decide_eq_false_iff_not]
          omega
        rw [hres, horig]
      · simp only [h3, if_false]; simp

theorem stripChars_eq_nil_iff (l : List Char) :
    stripChars l = [] ↔ ∀ c ∈ l, isPySpace c = true := by
  unfold stripChars
  rw [List.reverse_eq_nil_iff, List.dropWhile_eq_nil_iff]
  constructor
  · intro h c hc
    by_cases hsp : isPySpace c = true
    · exact hsp
    · exfalso
      have hc1 : c ∈ l.dropWhile isPySpace := by
        have hsplit := List.takeWhile_append_dropWhile (p := isPySpace) (l := l)
        rw [← hsplit] at hc
        rcases List.mem_append.mp hc with h1 | h1
        · exact absurd (List.mem_takeWhile_imp h1) (by simpa using hsp)
        · exact h1
      have := h c (by simpa using hc1)
      exact hsp this
  · intro h c hc
    apply h
    have : c ∈ l.dropWhile isPySpace := by simpa using hc
    have hsub := List.dropWhile_sublist (l := l) (p := isPySpace)
    exact hsub.mem this

theorem mem_dropWhile_of_not_space (l : List Char) (c : Char) (hc : c ∈ l)
    (hs : isPySpace c = false) : c ∈ l.dropWhile isPySpace := by
  have hsplit := List.takeWhile_append_dropWhile (p := isPySpace) (l := l)
  rw [← hsplit] at hc
  rcases List.mem_append.mp hc with h1 | h1
  · exact absurd (List.mem_takeWhile_imp h1) (by simp [hs])
  · exact h1

theorem mem_stripChars_of_not_space (l : List Char) (c : Char) (hc : c ∈ l)
    (hs : isPySpace c = false) : c ∈ stripChars l := by
  unfold stripChars
  rw [List.mem_reverse]
  apply mem_dropWhile_of_not_space
  · rw [List.mem_reverse]
    exact mem_dropWhile_of_not_space l c hc hs
  · exact hs

theorem stripChars_ne_nil_of_mem (l : List Char) (c : Char) (hc : c ∈ l)
    (hs : isPySpace c = false) : stripChars l ≠ [] := by
  intro h
  have h2 := (stripChars_eq_nil_iff l).mp h c hc
  simp [h2] at hs

theorem stringMk_eq_empty_iff (l : List Char) : String.mk l = "" ↔ l = [] := by
  simp [String.ext_iff]

theorem pyStrip_eq_empty_iff (s : String) :
    pyStrip s = "" ↔ stripChars s.toList = [] := by
  unfold pyStrip
  exact stringMk_eq_empty_iff _

theorem toList_pyLower (s : String) :
    (pyLower s).toList = s.toList.map pyLowerChar := rfl

theorem toList_pyStrip (s : String) :
    (pyStrip s).toList = stripChars s.toList := rfl

/-- The lowercased-stripped dedup key of an already-stripped non-empty
string is non-empty. -/
theorem stripKey_ne_empty (q0 : String) (h : pyStrip q0 ≠ "") :
    pyStrip (pyLower (pyStrip q0)) ≠ "" := by
  intro hcon
  apply h
  rw [pyStrip_eq_empty_iff] at hcon ⊢
  rw [stripChars_eq_nil_iff]
  intro c hc
  by_cases hsp : isPySpace c = true
  · exact hsp
  · exfalso
    have hcf : isPySpace c = false := by
      cases hq : isPySpace c
      · rfl
      · exact absurd hq hsp
    have hmem := mem_stripChars_of_not_space _ c hc hcf
    have hmem2 : pyLowerChar c ∈ (pyLower (pyStrip q0)).toList := by
      rw [toList_pyLower, toList_pyStrip]
      exact List.mem_map_of_mem pyLowerChar hmem
    have hsp2 := (stripChars_eq_nil_iff _).mp hcon _ hmem2
    rw [isPySpace_pyLowerChar] at hsp2
    simp [hsp2] at hcf

/- ───────────── deduplication and expansion lemmas ───────────── -/

/-- Every survivor of `dedupByKey` has a non-empty key outside `seen`,
and survivors have pairwise distinct keys. -/
theorem dedupByKey_props (l : List String) : ∀ seen : List String,
    (∀ v ∈ dedupByKey seen l,
      pyStrip (pyLower v) ∉ seen ∧ pyStrip (pyLower v) ≠ "")
    ∧ List.Pairwise (fun a b => pyStrip (pyLower a) ≠ pyStrip (pyLower b))
        (dedupByKey seen l) := by
  induction l with
  | nil => intro seen; simp [dedupByKey]
  | cons v vs ih =>
    intro seen
    unfold dedupByKey
    dsimp only
    by_cases h : pyStrip (pyLower v) ≠ "" ∧ pyStrip (pyLower v) ∉ seen
    · rw [if_pos h]
      obtain ⟨ihmem, ihpw⟩ := ih (pyStrip (pyLower v) :: seen)
      refine ⟨?_, ?_⟩
      · intro x hx
        rcases List.mem_cons.mp hx with hx | hx
        · subst hx; exact ⟨h.2, h.1⟩
        · have := ihmem x hx
          exact ⟨fun hmem => this.1 (List.mem_cons_of_mem _ hmem), this.2⟩
      · refine List.pairwise_cons.mpr ⟨?_, ihpw⟩
        intro b hb
        have := (ihmem b hb).1
        intro heq
        exact this (heq ▸ List.mem_cons_self _ _)
    · rw [if_neg h]
      exact ih seen

/-- When the head's key is non-empty, deduplication keeps it first. -/
theorem dedupByKey_cons (q : String) (rest : List String)
    (h : pyStrip (pyLower q) ≠ "") :
    dedupByKey [] (q :: rest) =
      q :: dedupByKey [pyStrip (pyLower q)] rest := by
  unfold dedupByKey
  dsimp only
  rw [if_pos (⟨h, List.not_mem_nil _⟩ : pyStrip (pyLower q) ≠ "" ∧ pyStrip (pyLower q) ∉ ([] : List String))]
  cases rest <;> simp [dedupByKey]

/-- `diacAppend` only ever appends to the variant list. -/
theorem diacAppend_append (question : String) (vs : List String)
    (kw : String) : ∃ t, diacAppend question vs kw = vs ++ t := by
  unfold diacAppend
  cases h : (expandDiacriticalVariants kw).find? (fun dv =>
      dv != kw &&
      !((vs.map pyLower).contains (pyReplace (pyLower question) kw dv))) with
  | none => exact ⟨[], by simp⟩
  | some dv => exact ⟨[pyReplace (pyLower question) kw dv], rfl⟩

/-- The diacritical-expansion fold only ever appends. -/
theorem foldl_diacAppend_append (question : String) (ks : List String) :
    ∀ vs : List String, ∃ t, ks.foldl (diacAppend question) vs = vs ++ t := by
  induction ks with
  | nil => intro vs; exact ⟨[], by simp⟩
  | cons k ks ih =>
    intro vs
    obtain ⟨t1, ht1⟩ := diacAppend_append question vs k
    obtain ⟨t2, ht2⟩ := ih (diacAppend question vs k)
    refine ⟨t1 ++ t2, ?_⟩
    rw [List.foldl_cons, ht2, ht1, List.append_assoc]

/-- The raw variant accumulation starts with the (stripped) question. -/
theorem expandVariantsRaw_head (llm : Except Unit (List String))
    (question : String) :
    ∃ t, expandVariantsRaw llm question = question :: t := by
  unfold expandVariantsRaw
  obtain ⟨t, ht⟩ := foldl_diacAppend_append question
    ((extractKeywords question).take 4)
    (question :: _)
  exact ⟨_, ht⟩

/-- In the language-model-failure case the raw variant list contains the
deterministic fallback variants as a contiguous segment, appended after
the deterministic and domain variants. -/
theorem expandVariantsRaw_error_fallback (question : String) :
    ∃ pre ext, expandVariantsRaw (Except.error ()) question =
      pre ++ fallbackVariants question ++ ext := by
  unfold expandVariantsRaw
  obtain ⟨t, ht⟩ := foldl_diacAppend_append question
    ((extractKeywords question).take 4)
    (question :: _)
  rw [ht]
  refine ⟨question :: ((if normalizeQuery question ≠ pyLower question then [normalizeQuery question] else [])
      ++ (if normalizeLegalQuery question ≠ normalizeQuery question then [normalizeLegalQuery question] else [])
      ++ (if extractEntities question ≠ [] then [joinSpace (extractEntities question)] else [])
      ++ (if 2 ≤ (extractKeywords question).length then [joinSpace (extractKeywords question)] else [])
      ++ ((detectDomains question).take 2).flatMap (fun d => d.search_terms)), t, ?_⟩
  simp [List.append_assoc]

/-- C2 (amended core): the output of `expand_query` always starts with
the stripped question, has between 1 and 18 elements, and its elements
are pairwise distinct after lowercasing and stripping. -/
theorem expandQuery_shape (llm : Except Unit (List String)) (q0 : String) :
    (expandQuery llm q0).head? = some (pyStrip q0)
    ∧ 1 ≤ (expandQuery llm q0).length
    ∧ (expandQuery llm q0).length ≤ 18
    ∧ (expandQuery llm q0).Pairwise
        (fun a b => pyStrip (pyLower a) ≠ pyStrip (pyLower b)) := by
  unfold expandQuery
  by_cases hq : pyStrip q0 = ""
  · rw [if_pos hq]
    refine ⟨rfl, by simp, by simp, by simp⟩
  · rw [if_neg hq]
    obtain ⟨t, ht⟩ := expandVariantsRaw_head llm (pyStrip q0)
    rw [ht]
    have hkey := stripKey_ne_empty q0 hq
    rw [dedupByKey_cons _ _ hkey]
    have htake : (pyStrip q0 :: dedupByKey [pyStrip (pyLower (pyStrip q0))] t).take 18
        = pyStrip q0 :: (dedupByKey [pyStrip (pyLower (pyStrip q0))] t).take 17 := rfl
    rw [htake]
    refine ⟨rfl, by simp, ?_, ?_⟩
    · have : ((dedupByKey [pyStrip (pyLower (pyStrip q0))] t).take 17).length ≤ 17 := by
        rw [List.length_take]
        exact min_le_left _ _
      simp only [List.length_cons]
      omega
    · have hpw := (dedupByKey_props (pyStrip q0 :: t) []).2
      rw [dedupByKey_cons _ _ hkey] at hpw
      have hsub : (pyStrip q0 :: (dedupByKey [pyStrip (pyLower (pyStrip q0))] t).take 17).Sublist
          (pyStrip q0 :: dedupByKey [pyStrip (pyLower (pyStrip q0))] t) :=
        List.Sublist.cons₂ _ (List.take_sublist _ _)
      exact hpw.sublist hsub

/-- C8 (amended core): `expand_query` never fails — for every oracle
outcome and every input it returns a non-empty list headed by the
stripped question, and on a language-model failure the deterministic
fallback variants are injected into the raw variant list. -/
theorem expandQuery_total (llm : Except Unit (List String)) (q0 : String) :
    expandQuery llm q0 ≠ []
    ∧ (expandQuery llm q0).head? = some (pyStrip q0)
    ∧ ∃ pre ext, expandVariantsRaw (Except.error ()) (pyStrip q0) =
        pre ++ fallbackVariants (pyStrip q0) ++ ext := by
  obtain ⟨hhead, hlen, _, _⟩ := expandQuery_shape llm q0
  refine ⟨?_, hhead, expandVariantsRaw_error_fallback (pyStrip q0)⟩
  intro hnil
  rw [hnil] at hlen
  simp at hlen

/- ───────────── C2 / C8: expansion claim theorems ───────────── -/

/-- C2 counterexample: for the input `" a"` (non-empty, with leading
whitespace) the first returned variant is the stripped question `"a"`,
not the verbatim question `" a"` — `expand_query` strips its input
before building variants. -/
theorem expandQuery_verbatim_cex :
    expandQuery (Except.ok []) " a" = ["a"]
    ∧ (expandQuery (Except.ok []) " a").head? ≠ some " a" := by
  decide

/-- C8 counterexample: with the language-model call failing, the input
`" a"` yields `["a"]`, which does not contain the verbatim question
`" a"` — only its stripped form. -/
theorem expandQuery_error_verbatim_cex :
    expandQuery (Except.error ()) " a" = ["a"]
    ∧ " a" ∉ expandQuery (Except.error ()) " a" := by
  decide

/- ───────────── C9: stitching at window 0 ───────────── -/

/-- C9 (amended): at `window = 0` stitching ignores the neighbor store
entirely, returns the chunks in order with `text` unchanged,
`stitched_text` equal to the chunk's own text (falling back to
`content` when `text` is absent **or empty**), and `neighbor_indices`
equal to the singleton of the chunk's own index. -/
theorem stitch_window_zero (db db' : String → Int → Option String)
    (chunks : List StitchChunk) (i : Nat) :
    stitchNeighbors db chunks 0 = stitchNeighbors db' chunks 0
    ∧ (stitchNeighbors db chunks 0).length = chunks.length
    ∧ (stitchNeighbors db chunks 0)[i]? = (chunks[i]?).map selfStitch
    ∧ (∀ c ∈ chunks,
        (selfStitch c).text = c.text
        ∧ (∀ t, c.text = some t → t ≠ "" → (selfStitch c).stitched_text = some t)
        ∧ (c.text = none →
            (selfStitch c).stitched_text = some (c.content.getD ""))
        ∧ (c.text = some "" →
            (selfStitch c).stitched_text = some (c.content.getD ""))
        ∧ (selfStitch c).neighbor_indices = [c.chunk_index]) := by
  have hbranch : ∀ db0 : String → Int → Option String,
      stitchNeighbors db0 chunks 0 = chunks.map selfStitch := by
    intro db0
    unfold stitchNeighbors
    rw [if_pos (Or.inr (by norm_num))]
  refine ⟨by rw [hbranch, hbranch], by rw [hbranch]; simp,
    by rw [hbranch]; simp, ?_⟩
  intro c _
  refine ⟨rfl, ?_, ?_, ?_, rfl⟩
  · intro t ht hne
    simp [selfStitch, textOrContent, ht, hne]
  · intro ht
    simp [selfStitch, textOrContent, ht]
  · intro ht
    simp [selfStitch, textOrContent, ht]

/-- C9 witness: a chunk with non-empty text keeps it as its stitched
text at window 0, and the annotations are as claimed. -/
theorem stitch_window_zero_witness :
    (selfStitch { text := some "t1", content := some "c1", chunk_index := 3 }).stitched_text
      = some "t1"
    ∧ (selfStitch { text := some "t1", content := some "c1", chunk_index := 3 }).neighbor_indices
      = [(3 : Int)] := by
  have h := (stitch_window_zero (fun _ _ => none) (fun _ _ => some "z")
    [{ text := some "t1", content := some "c1", chunk_index := 3 }] 0).2.2.2
  have hc := h { text := some "t1", content := some "c1", chunk_index := 3 }
    (by decide)
  exact ⟨hc.2.1 "t1" rfl (by decide), hc.2.2.2.2⟩

/-- C9 counterexample: a chunk whose `text` key is present but empty
gets `stitched_text = content`, not its own (empty) text — Python's
`or` falls through on the empty string, not only on an absent key. -/
theorem stitch_text_empty_cex :
    c9Chunk.text = some ""
    ∧ (stitchNeighbors (fun _ _ => none) [c9Chunk] 0).map
        (fun c => c.stitched_text) = [some "abc"]
    ∧ (some "abc" : Option String) ≠ c9Chunk.text := by
  decide

/- ───────────── C10: settings frame of the multi-query fan-out ───────────── -/

/-- C10: `multi_query_hybrid_search` overrides `HYBRID_FETCH_K` and
`HYBRID_FINAL_K` to the fan-out fetch width, the body observes exactly
the overridden settings, and on every exit path (`Except.ok` or
`Except.error` from the body) the `finally` block restores the whole
settings record — the post-call settings equal the pre-call settings. -/
theorem multiquery_settings_restored (fetchKOpt : Option Nat)
    (body : Settings → VariantOutcome) (s : Settings) :
    (multiQuerySettingsFrame fetchKOpt body s).2 = s
    ∧ (multiQuerySettingsFrame fetchKOpt body s).2.HYBRID_FETCH_K
        = s.HYBRID_FETCH_K
    ∧ (multiQuerySettingsFrame fetchKOpt body s).2.HYBRID_FINAL_K
        = s.HYBRID_FINAL_K
    ∧ (multiQuerySettingsFrame fetchKOpt body s).1 =
        body { s with HYBRID_FETCH_K := orDefault fetchKOpt s.MQ_FETCH_K,
                      HYBRID_FINAL_K := orDefault fetchKOpt s.MQ_FETCH_K } :=
  ⟨rfl, rfl, rfl, rfl⟩

/- ───────────── C6: the confidence gate ───────────── -/

/-- C6 (amended): whenever any retrieved chunk has positive similarity
(the code's test for "vector results exist") and the best similarity is
strictly below the configured floor, the pipeline returns the refusal
answer joined with the suggestion to rephrase, and makes no
language-model call (the result is identical for every model oracle);
when no chunk has positive similarity but keyword-sourced chunks
exist, the gate is bypassed and the model is called. -/
theorem confidence_gate (s : Settings) (chunks : List Candidate)
    (llm llm' : Unit → String) :
    (chunks ≠ [] →
      chunks.any (fun c => 0 < c.similarity) = true →
      maxSimilarity chunks < s.CONFIDENCE_MIN_SIMILARITY →
      answerStage s chunks llm
          = (NO_CONTEXT_RESPONSE ++ "\n\n" ++ SUGGEST_REPHRASE, false)
        ∧ answerStage s chunks llm = answerStage s chunks llm')
    ∧ (chunks ≠ [] →
      chunks.any (fun c => 0 < c.similarity) = false →
      chunks.any (fun c => c.sources.contains "keyword") = true →
      answerStage s chunks llm = (llm (), true)) := by
  constructor
  · intro h1 h2 h3
    have hblock : ∀ f : Unit → String,
        answerStage s chunks f
          = (NO_CONTEXT_RESPONSE ++ "\n\n" ++ SUGGEST_REPHRASE, false) := by
      intro f
      unfold answerStage
      rw [if_neg h1, if_pos ⟨h2, h3⟩]
    exact ⟨hblock llm, by rw [hblock llm, hblock llm']⟩
  · intro h1 h2 _
    unfold answerStage
    rw [if_neg h1, if_neg (by simp [h2])]

/-- C6 witness: with the default 0.35 floor, a single vector chunk of
similarity 0.2 is blocked without a model call, while a single
keyword-only chunk bypasses the gate and the model is called. -/
theorem confidence_gate_witness :
    answerStage defaultSettings [c6LowSim] (fun _ => "X")
        = (NO_CONTEXT_RESPONSE ++ "\n\n" ++ SUGGEST_REPHRASE, false)
    ∧ answerStage defaultSettings [c6Kw] (fun _ => "X") = ("X", true) :=
  ⟨((confidence_gate defaultSettings [c6LowSim] (fun _ => "X") (fun _ => "X")).1
      (by simp)
      (by simp only [c6LowSim, List.any_cons, List.any_nil, Bool.or_false,
            decide_eq_true_eq]; norm_num)
      ((by norm_num : (0.2 : ℚ) < (0.35 : ℚ)))).1,
   (confidence_gate defaultSettings [c6Kw] (fun _ => "X") (fun _ => "X")).2
      (by simp)
      (by simp only [c6Kw, List.any_cons, List.any_nil, Bool.or_false,
            decide_eq_true_eq]; norm_num)
      (by decide)⟩

/-- C6 counterexample: a chunk that is vector-sourced (its `sources`
list records "vector") but has similarity 0 (cosine distance 1) makes
the claim's premise true — a vector-sourced passage exists with best
similarity below the floor — yet the code proceeds to call the model
instead of refusing, because its gate tests `similarity > 0`, not
vector-sourcedness. -/
theorem confidence_gate_vector_sourced_cex :
    c6ZeroSim.sources.contains "vector" = true
    ∧ maxSimilarity [c6ZeroSim] < defaultSettings.CONFIDENCE_MIN_SIMILARITY
    ∧ answerStage defaultSettings [c6ZeroSim] (fun _ => "MODEL")
        = ("MODEL", true)
    ∧ ("MODEL" : String) ≠ NO_CONTEXT_RESPONSE ++ "\n\n" ++ SUGGEST_REPHRASE := by
  refine ⟨rfl, (by norm_num : (0 : ℚ) < (0.35 : ℚ)), ?_, by decide⟩
  unfold answerStage
  rw [if_neg (by simp), if_neg ?_]
  rintro ⟨h1, _⟩
  simp only [c6ZeroSim, List.any_cons, List.any_nil, Bool.or_false,
    decide_eq_true_eq] at h1
  exact absurd h1 (by norm_num)

/- ───────────── C7: isolated per-variant failures ───────────── -/

/-- The merge fold treats a raised per-variant exception exactly like a
variant that returned zero chunks. -/
theorem foldl_merge_errToEmpty (l : List (Nat × VariantOutcome)) :
    ∀ pool : Pool,
    l.foldl (fun pool ir =>
        match ir.2 with
        | Except.error _ => pool
        | Except.ok chunks => chunks.foldl (mergeChunk ir.1) pool) pool
    = (l.map (Prod.map id errToEmpty)).foldl (fun pool ir =>
        match ir.2 with
        | Except.error _ => pool
        | Except.ok chunks => chunks.foldl (mergeChunk ir.1) pool) pool := by
  induction l with
  | nil => intro pool; rfl
  | cons ir rest ih =>
    intro pool
    rcases ir with ⟨i, r⟩
    cases r with
    | error e => simpa using ih pool
    | ok chunks => simpa using ih (chunks.foldl (mergeChunk i) pool)

/-- The merged candidate pool is unchanged when raised variants are
replaced by empty result sets. -/
theorem mergeResults_errToEmpty (results : List VariantOutcome) :
    mergeResults results = mergeResults (results.map errToEmpty) := by
  unfold mergeResults
  rw [List.enum_map, foldl_merge_errToEmpty]

/-- C7: failed variant searches contribute zero candidates — the whole
multi-query result (merge, dedup, boost, rerank) equals the one
obtained by replacing every raised variant with an empty success — and
a call in which every variant raises returns the empty chunk list
rather than raising. -/
theorem multiquery_partial_failure (s : Settings)
    (search : String → VariantOutcome) (queries : List String)
    (finalKOpt : Option Nat) :
    multiQueryChunks s search queries finalKOpt
      = multiQueryChunks s (fun q => errToEmpty (search q)) queries finalKOpt
    ∧ multiQueryChunks s (fun _ => (Except.error () : VariantOutcome))
        queries finalKOpt = [] := by
  constructor
  · unfold multiQueryChunks
    dsimp only
    have h1 : queries.map (fun q => errToEmpty (search q))
        = (queries.map search).map errToEmpty := by
      rw [List.map_map]; rfl
    rw [h1, ← mergeResults_errToEmpty]
  · unfold multiQueryChunks
    dsimp only
    have hempty : mergeResults
        (queries.map (fun _ => (Except.error () : VariantOutcome))) = [] := by
      unfold mergeResults
      have hgen : ∀ (l : List (Nat × VariantOutcome)),
          (∀ ir ∈ l, ∃ e, ir.2 = Except.error e) →
          l.foldl (fun pool ir =>
            match ir.2 with
            | Except.error _ => pool
            | Except.ok chunks => chunks.foldl (mergeChunk ir.1) pool)
            ([] : Pool) = [] := by
        intro l
        induction l with
        | nil => intro _; rfl
        | cons ir rest ih =>
          intro hall
          obtain ⟨e, he⟩ := hall ir (List.mem_cons_self _ _)
          simp only [List.foldl_cons, he]
          exact ih (fun x hx => hall x (List.mem_cons_of_mem _ hx))
      apply hgen
      intro ir hir
      obtain ⟨i, r⟩ := ir
      have h2 := List.mem_enum (h := hir)
      refine ⟨(), ?_⟩
      have h3 := h2.2
      rw [List.getElem_map] at h3
      exact h3
    rw [hempty]
    simp [applyMultiBoost, sortDescBy, applyArticleCohesion]

/- ───────────── C5: multi-query boost lemmas ───────────── -/

theorem mergeUpdate_query_hits (i : Nat) (chunk ex : Candidate) :
    (mergeUpdate i chunk ex).query_hits = ex.query_hits + 1 := by
  unfold mergeUpdate
  dsimp only
  split_ifs <;> rfl

theorem poolUpdate_mem (key : String) (f : Candidate → Candidate)
    (pool : Pool) (k : String) (c : Candidate)
    (h : (k, c) ∈ poolUpdate key f pool) :
    (k, c) ∈ pool ∨ (k = key ∧ ∃ c₀, (key, c₀) ∈ pool ∧ c = f c₀) := by
  induction pool with
  | nil => simp [poolUpdate] at h
  | cons p rest ih =>
    obtain ⟨pk, pc⟩ := p
    unfold poolUpdate at h
    by_cases hk : pk = key
    · rw [if_pos hk] at h
      rcases List.mem_cons.mp h with h1 | h1
      · rw [Prod.ext_iff] at h1
        right
        refine ⟨h1.1.trans hk, pc, ?_, h1.2⟩
        rw [← hk]
        exact List.mem_cons_self _ _
      · exact Or.inl (List.mem_cons_of_mem _ h1)
    · rw [if_neg hk] at h
      rcases List.mem_cons.mp h with h1 | h1
      · exact Or.inl (h1 ▸ List.mem_cons_self _ _)
      · rcases ih h1 with h2 | ⟨hkey, c₀, hc₀, hcc⟩
        · exact Or.inl (List.mem_cons_of_mem _ h2)
        · exact Or.inr ⟨hkey, c₀, List.mem_cons_of_mem _ hc₀, hcc⟩

/-- Processing one variant's chunk list (chunks with pairwise distinct
keys) increases any candidate's hit count by at most one. -/
theorem foldl_mergeChunk_hits_ub (i m : Nat) :
    ∀ (chunks : List Candidate) (pool : Pool),
      (chunks.map candidateKey).Nodup →
      (∀ kc ∈ pool, kc.2.query_hits ≤ m + 1
        ∧ (kc.1 ∈ chunks.map candidateKey → kc.2.query_hits ≤ m)) →
      ∀ kc ∈ chunks.foldl (mergeChunk i) pool, kc.2.query_hits ≤ m + 1 := by
  intro chunks
  induction chunks with
  | nil =>
    intro pool _ hP kc hkc
    exact (hP kc hkc).1
  | cons ch cs ih =>
    intro pool hnd hP kc hkc
    rw [List.foldl_cons] at hkc
    rw [List.map_cons] at hnd
    have hnd' : (cs.map candidateKey).Nodup := (List.nodup_cons.mp hnd).2
    have hknotin : candidateKey ch ∉ cs.map candidateKey :=
      (List.nodup_cons.mp hnd).1
    refine ih (mergeChunk i pool ch) hnd' ?_ kc hkc
    intro kc' hkc'
    obtain ⟨k', c'⟩ := kc'
    unfold mergeChunk at hkc'
    dsimp only at hkc'
    cases hl : pool.lookup (candidateKey ch) with
    | none =>
      rw [hl] at hkc'
      rcases List.mem_append.mp hkc' with hin | hin
      · obtain ⟨hub, hcond⟩ := hP _ hin
        exact ⟨hub, fun hmem => hcond (List.mem_cons_of_mem _ hmem)⟩
      · have heq : (k', c')
            = (candidateKey ch,
               { ch with query_hits := 1, found_by_queries := [i] }) := by
          simpa using hin
        rw [Prod.mk.injEq] at heq
        constructor
        · rw [heq.2]
          show 1 ≤ m + 1
          omega
        · intro hmem
          rw [heq.1] at hmem
          exact absurd hmem hknotin
    | some c₀' =>
      rw [hl] at hkc'
      rcases poolUpdate_mem _ _ _ _ _ hkc' with hin | ⟨hkey, c₀, hc₀, hcc⟩
      · obtain ⟨hub, hcond⟩ := hP _ hin
        exact ⟨hub, fun hmem => hcond (List.mem_cons_of_mem _ hmem)⟩
      · constructor
        · rw [hcc, mergeUpdate_query_hits]
          have hc0b : c₀.query_hits ≤ m :=
            (hP (candidateKey ch, c₀) hc₀).2 (by
              rw [List.map_cons]
              exact List.mem_cons_self _ _)
          omega
        · intro hmem
          rw [hkey] at hmem
          exact absurd hmem hknotin

/-- Hit counts in the merged pool never fall below 1. -/
theorem foldl_mergeChunk_hits_lb (i : Nat) :
    ∀ (chunks : List Candidate) (pool : Pool),
      (∀ kc ∈ pool, 1 ≤ kc.2.query_hits) →
      ∀ kc ∈ chunks.foldl (mergeChunk i) pool, 1 ≤ kc.2.query_hits := by
  intro chunks
  induction chunks with
  | nil => intro pool hP kc hkc; exact hP kc hkc
  | cons ch cs ih =>
    intro pool hP kc hkc
    rw [List.foldl_cons] at hkc
    refine ih (mergeChunk i pool ch) ?_ kc hkc
    intro kc' hkc'
    obtain ⟨k', c'⟩ := kc'
    unfold mergeChunk at hkc'
    dsimp only at hkc'
    cases hl : pool.lookup (candidateKey ch) with
    | none =>
      rw [hl] at hkc'
      rcases List.mem_append.mp hkc' with hin | hin
      · exact hP _ hin
      · have heq : (k', c')
            = (candidateKey ch,
               { ch with query_hits := 1, found_by_queries := [i] }) := by
          simpa using hin
        rw [Prod.mk.injEq] at heq
        rw [heq.2]
    | some c₀' =>
      rw [hl] at hkc'
      rcases poolUpdate_mem _ _ _ _ _ hkc' with hin | ⟨_, c₀, _, hcc⟩
      · exact hP _ hin
      · rw [hcc, mergeUpdate_query_hits]
        omega

/-- Across the whole fan-out, every merged candidate is hit at most
once per variant. -/
theorem foldl_results_hits_ub :
    ∀ (l : List (Nat × VariantOutcome)) (pool : Pool) (m : Nat),
      (∀ ir ∈ l, ∀ chunks, ir.2 = Except.ok chunks →
        (chunks.map candidateKey).Nodup) →
      (∀ kc ∈ pool, kc.2.query_hits ≤ m) →
      ∀ kc ∈ l.foldl (fun pool ir =>
          match ir.2 with
          | Except.error _ => pool
          | Except.ok chunks => chunks.foldl (mergeChunk ir.1) pool) pool,
        kc.2.query_hits ≤ m + l.length := by
  intro l
  induction l with
  | nil => intro pool m _ hP kc hkc; simpa using hP kc hkc
  | cons ir rest ih =>
    intro pool m hnd hP kc hkc
    rw [List.foldl_cons] at hkc
    obtain ⟨i, r⟩ := ir
    cases hr : r with
    | error e =>
      subst hr
      have hb := ih pool (m + 1)
        (fun x hx => hnd x (List.mem_cons_of_mem _ hx))
        (fun kc' hkc' => Nat.le_succ_of_le (hP kc' hkc')) kc hkc
      simpa [Nat.add_assoc, Nat.add_comm, Nat.add_left_comm] using hb
    | ok chunks =>
      subst hr
      have hnd0 : (chunks.map candidateKey).Nodup :=
        hnd _ (List.mem_cons_self _ _) chunks rfl
      have hmid : ∀ kc' ∈ chunks.foldl (mergeChunk i) pool,
          kc'.2.query_hits ≤ m + 1 :=
        foldl_mergeChunk_hits_ub i m chunks pool hnd0
          (fun kc' hkc' => ⟨Nat.le_succ_of_le (hP kc' hkc'),
            fun _ => hP kc' hkc'⟩)
      have hb := ih (chunks.foldl (mergeChunk i) pool) (m + 1)
        (fun x hx => hnd x (List.mem_cons_of_mem _ hx)) hmid kc hkc
      simpa [Nat.add_assoc, Nat.add_comm, Nat.add_left_comm] using hb

/-- Each merged candidate was found by between 1 and `results.length`
variants. -/
theorem mergeResults_hits (results : List VariantOutcome)
    (hnd : ∀ l, Except.ok l ∈ results → (l.map candidateKey).Nodup) :
    ∀ kc ∈ mergeResults results,
      1 ≤ kc.2.query_hits ∧ kc.2.query_hits ≤ results.length := by
  intro kc hkc
  unfold mergeResults at hkc
  constructor
  · revert hkc
    have : ∀ (l : List (Nat × VariantOutcome)) (pool : Pool),
        (∀ kc' ∈ pool, 1 ≤ kc'.2.query_hits) →
        ∀ kc' ∈ l.foldl (fun pool ir =>
            match ir.2 with
            | Except.error _ => pool
            | Except.ok chunks => chunks.foldl (mergeChunk ir.1) pool) pool,
          1 ≤ kc'.2.query_hits := by
      intro l
      induction l with
      | nil => intro pool hP kc' hkc'; exact hP kc' hkc'
      | cons ir rest ih =>
        intro pool hP kc' hkc'
        rw [List.foldl_cons] at hkc'
        obtain ⟨i, r⟩ := ir
        cases hr : r with
        | error e => subst hr; exact ih pool hP kc' hkc'
        | ok chunks =>
          subst hr
          exact ih (chunks.foldl (mergeChunk i) pool)
            (foldl_mergeChunk_hits_lb i chunks pool hP) kc' hkc'
    intro hkc
    exact this results.enum [] (by simp) kc hkc
  · have hb := foldl_results_hits_ub results.enum [] 0
      (fun ir hir chunks hok => by
        apply hnd
        obtain ⟨i, r⟩ := ir
        have h2 := List.mem_enum (h := hir)
        rw [← hok]
        rw [h2.2]
        exact List.getElem_mem _)
      (by simp) kc hkc
    simpa [List.enum_length] using hb

theorem multiQueryBoost_pos_den (n : Nat) : (0 : ℚ) < max ((n : ℚ) - 1) 1 :=
  lt_of_lt_of_le zero_lt_one (le_max_right _ _)

theorem multiQueryBoost_mono (s : ℚ) (n h1 h2 : Nat) (hle : h1 ≤ h2) :
    s + multiQueryBoost h1 n ≤ s + multiQueryBoost h2 n := by
  apply add_le_add_left
  unfold multiQueryBoost
  apply mul_le_mul_of_nonneg_left _ (by norm_num)
  rw [div_le_div_iff_of_pos_right (multiQueryBoost_pos_den n)]
  have : (h1 : ℚ) ≤ (h2 : ℚ) := by exact_mod_cast hle
  linarith

theorem multiQueryBoost_le (h n : Nat) (hle : h ≤ n) :
    multiQueryBoost h n ≤ 0.012 := by
  unfold multiQueryBoost
  have hr : ((h : ℚ) - 1) / max ((n : ℚ) - 1) 1 ≤ 1 := by
    rw [div_le_one (multiQueryBoost_pos_den n)]
    have h1 : (h : ℚ) ≤ (n : ℚ) := by exact_mod_cast hle
    calc (h : ℚ) - 1 ≤ (n : ℚ) - 1 := by linarith
    _ ≤ max ((n : ℚ) - 1) 1 := le_max_left _ _
  calc (0.012 : ℚ) * (((h : ℚ) - 1) / max ((n : ℚ) - 1) 1)
      ≤ 0.012 * 1 := mul_le_mul_of_nonneg_left hr (by norm_num)
  _ = 0.012 := mul_one _

theorem multiQueryBoost_eq_iff (h n : Nat) (h1 : 1 ≤ h) (hle : h ≤ n) :
    multiQueryBoost h n = 0.012 ↔ (h = n ∧ 2 ≤ n) := by
  unfold multiQueryBoost
  rcases Nat.lt_or_ge n 2 with hn | hn
  · -- n ≤ 1: together with 1 ≤ h ≤ n this forces h = n = 1, boost 0
    have hn1 : n = 1 := by omega
    have hh1 : h = 1 := by omega
    subst hn1; subst hh1
    constructor
    · intro heq
      norm_num at heq
    · rintro ⟨-, habs⟩
      omega
  · -- n ≥ 2: the denominator is n - 1 and equality means h = n
    have hden : max ((n : ℚ) - 1) 1 = (n : ℚ) - 1 := by
      apply max_eq_left
      have : (2 : ℚ) ≤ (n : ℚ) := by exact_mod_cast hn
      linarith
    have hnz : ((n : ℚ) - 1) ≠ 0 := by
      have : (2 : ℚ) ≤ (n : ℚ) := by exact_mod_cast hn
      intro hz
      rw [sub_eq_zero] at hz
      rw [hz] at this
      norm_num at this
    rw [hden]
    constructor
    · intro heq
      have hr : ((h : ℚ) - 1) / ((n : ℚ) - 1) = 1 := by
        have h012 : (0.012 : ℚ) ≠ 0 := by norm_num
        have := mul_left_cancel₀ h012 (heq.trans (mul_one (0.012 : ℚ)).symm)
        exact this
      rw [div_eq_one_iff_eq hnz, sub_left_inj] at hr
      exact ⟨by exact_mod_cast hr, hn⟩
    · rintro ⟨heq, -⟩
      subst heq
      rw [div_self hnz, mul_one]

/-- C5 (amended): the boost stored by `multi_query_hybrid_search` adds
exactly `0.012 * (hits - 1) / max(total - 1, 1)` to each candidate's
final score; holding the pre-boost score fixed the boosted score is
monotone in the hit count; for any candidate found by at most `total`
variants the boost never exceeds 0.012, with equality exactly when the
candidate was found by every variant **and there are at least two
variants**; and merged candidates indeed have hit counts between 1 and
the number of variants. -/
theorem multi_query_boost_monotone_bounded :
    (∀ (n : Nat) (pool : List Candidate) (i : Nat),
      ((applyMultiBoost n pool)[i]?).map (fun c => c.final_score)
        = (pool[i]?).map
            (fun c => c.final_score + multiQueryBoost c.query_hits n))
    ∧ (∀ (s : ℚ) (n h1 h2 : Nat), h1 ≤ h2 →
        s + multiQueryBoost h1 n ≤ s + multiQueryBoost h2 n)
    ∧ (∀ (h n : Nat), h ≤ n → multiQueryBoost h n ≤ 0.012)
    ∧ (∀ (h n : Nat), 1 ≤ h → h ≤ n →
        (multiQueryBoost h n = 0.012 ↔ (h = n ∧ 2 ≤ n)))
    ∧ (∀ results : List VariantOutcome,
        (∀ l, Except.ok l ∈ results → (l.map candidateKey).Nodup) →
        ∀ kc ∈ mergeResults results,
          1 ≤ kc.2.query_hits ∧ kc.2.query_hits ≤ results.length) := by
  refine ⟨?_, multiQueryBoost_mono, multiQueryBoost_le,
    multiQueryBoost_eq_iff, mergeResults_hits⟩
  intro n pool i
  unfold applyMultiBoost
  rw [List.getElem?_map]
  cases pool[i]? <;> rfl

/-- C5 witness: concrete instances of the monotonicity, the bound and
the equality condition. -/
theorem multi_query_boost_witness :
    ((5 : ℚ) + multiQueryBoost 3 15 ≤ (5 : ℚ) + multiQueryBoost 10 15)
    ∧ multiQueryBoost 10 15 ≤ 0.012
    ∧ (multiQueryBoost 15 15 = 0.012 ↔ ((15 : Nat) = 15 ∧ 2 ≤ 15)) :=
  ⟨multi_query_boost_monotone_bounded.2.1 5 15 3 10 (by decide),
   multi_query_boost_monotone_bounded.2.2.1 10 15 (by decide),
   multi_query_boost_monotone_bounded.2.2.2.1 15 15 (by decide) (by decide)⟩

/-- C5 counterexample: with a single query variant, a candidate found
by that (i.e. every) variant receives boost 0, not 0.012 — the claimed
"equality exactly when every variant found the candidate" fails for
total_queries = 1. -/
theorem multi_query_boost_equality_cex :
    multiQueryBoost 1 1 = 0
    ∧ multiQueryBoost 1 1 ≠ 0.012
    ∧ ((applyMultiBoost 1 [c5Cand]).map (fun c => c.final_score))
        = [c5Cand.final_score] := by
  have h0 : multiQueryBoost 1 1 = 0 := by
    unfold multiQueryBoost
    norm_num
  refine ⟨h0, by rw [h0]; norm_num, ?_⟩
  have hq : c5Cand.query_hits = 1 := rfl
  simp [applyMultiBoost, hq, h0]

/- ───────────── C3: the base RRF score ───────────── -/

theorem addVectorUpdate_keyword_rank (r : Nat) (ch : VectorChunk)
    (c : Candidate) : (addVectorUpdate r ch c).keyword_rank = c.keyword_rank := by
  unfold addVectorUpdate
  dsimp only
  split_ifs <;> rfl

theorem addKeywordUpdate_vector_rank (r : Nat) (c : Candidate) :
    (addKeywordUpdate r c).vector_rank = c.vector_rank := by
  unfold addKeywordUpdate
  dsimp only
  split_ifs <;> rfl

/-- After the vector phase every candidate still has no keyword rank. -/
theorem vphase_keyword_rank_none :
    ∀ (l : List (Nat × VectorChunk)) (pool : Pool),
      (∀ kc ∈ pool, kc.2.keyword_rank = none) →
      ∀ kc ∈ l.foldl (fun pool ic => addVector pool (ic.1 + 1) ic.2) pool,
        kc.2.keyword_rank = none := by
  intro l
  induction l with
  | nil => intro pool hP kc hkc; exact hP kc hkc
  | cons ic rest ih =>
    intro pool hP kc hkc
    rw [List.foldl_cons] at hkc
    refine ih (addVector pool (ic.1 + 1) ic.2) ?_ kc hkc
    intro kc' hkc'
    obtain ⟨k', c'⟩ := kc'
    unfold addVector at hkc'
    dsimp only at hkc'
    cases hl : pool.lookup (vChunkKey ic.2) with
    | none =>
      rw [hl] at hkc'
      rcases List.mem_append.mp hkc' with hin | hin
      · exact hP _ hin
      · have heq : (k', c') = (vChunkKey ic.2, makeCandidate ic.2 (ic.1 + 1)) := by
          simpa using hin
        rw [Prod.mk.injEq] at heq
        rw [heq.2]
        rfl
    | some c₀' =>
      rw [hl] at hkc'
      rcases poolUpdate_mem _ _ _ _ _ hkc' with hin | ⟨_, c₀, hc₀, hcc⟩
      · exact hP _ hin
      · rw [hcc, addVectorUpdate_keyword_rank]
        exact hP _ hc₀

/-- Every key present after the vector phase satisfies any predicate
holding for the incoming vector-chunk keys. -/
theorem vphase_keys (P : String → Prop) :
    ∀ (l : List (Nat × VectorChunk)) (pool : Pool),
      (∀ kc ∈ pool, P kc.1) →
      (∀ ic ∈ l, P (vChunkKey ic.2)) →
      ∀ kc ∈ l.foldl (fun pool ic => addVector pool (ic.1 + 1) ic.2) pool,
        P kc.1 := by
  intro l
  induction l with
  | nil => intro pool hP _ kc hkc; exact hP kc hkc
  | cons ic rest ih =>
    intro pool hP hl2 kc hkc
    rw [List.foldl_cons] at hkc
    refine ih (addVector pool (ic.1 + 1) ic.2) ?_
      (fun x hx => hl2 x (List.mem_cons_of_mem _ hx)) kc hkc
    intro kc' hkc'
    obtain ⟨k', c'⟩ := kc'
    unfold addVector at hkc'
    dsimp only at hkc'
    cases hl : pool.lookup (vChunkKey ic.2) with
    | none =>
      rw [hl] at hkc'
      rcases List.mem_append.mp hkc' with hin | hin
      · exact hP _ hin
      · have heq : (k', c') = (vChunkKey ic.2, makeCandidate ic.2 (ic.1 + 1)) := by
          simpa using hin
        rw [Prod.mk.injEq] at heq
        show P k'
        rw [heq.1]
        exact hl2 ic (List.mem_cons_self _ _)
    | some c₀' =>
      rw [hl] at hkc'
      rcases poolUpdate_mem _ _ _ _ _ hkc' with hin | ⟨hkey, c₀, hc₀, _⟩
      · exact hP _ hin
      · show P k'
        rw [hkey]
        exact hl2 ic (List.mem_cons_self _ _)

/-- The keyword phase never sets a keyword rank on a key outside the
keyword result set. -/
theorem kphase_keyword_rank_none (kresKeys : List String) :
    ∀ (l : List (Nat × KeywordChunk)) (pool : Pool),
      (∀ ic ∈ l, kwChunkKey ic.2 ∈ kresKeys) →
      (∀ kc ∈ pool, kc.1 ∉ kresKeys → kc.2.keyword_rank = none) →
      ∀ kc ∈ l.foldl (fun pool ic => addKeyword pool (ic.1 + 1) ic.2) pool,
        kc.1 ∉ kresKeys → kc.2.keyword_rank = none := by
  intro l
  induction l with
  | nil => intro pool _ hP kc hkc; exact hP kc hkc
  | cons ic rest ih =>
    intro pool hin0 hP kc hkc
    rw [List.foldl_cons] at hkc
    refine ih (addKeyword pool (ic.1 + 1) ic.2)
      (fun x hx => hin0 x (List.mem_cons_of_mem _ hx)) ?_ kc hkc
    intro kc' hkc'
    obtain ⟨k', c'⟩ := kc'
    unfold addKeyword at hkc'
    dsimp only at hkc'
    cases hl : pool.lookup (kwChunkKey ic.2) with
    | none =>
      rw [hl] at hkc'
      rcases List.mem_append.mp hkc' with hin | hin
      · exact hP _ hin
      · have heq : (k', c')
            = (kwChunkKey ic.2, makeCandidateKw ic.2 (ic.1 + 1)) := by
          simpa using hin
        rw [Prod.mk.injEq] at heq
        intro hnot
        exact absurd (heq.1 ▸ hin0 ic (List.mem_cons_self _ _)) hnot
    | some c₀' =>
      rw [hl] at hkc'
      rcases poolUpdate_mem _ _ _ _ _ hkc' with hin | ⟨hkey, c₀, hc₀, hcc⟩
      · exact hP _ hin
      · intro hnot
        exact absurd (hkey ▸ hin0 ic (List.mem_cons_self _ _)) hnot

/-- The keyword phase never sets a vector rank: keys outside the
vector result set keep `vector_rank = none`. -/
theorem kphase_vector_rank_none (vKeys : List String) :
    ∀ (l : List (Nat × KeywordChunk)) (pool : Pool),
      (∀ kc ∈ pool, kc.1 ∉ vKeys → kc.2.vector_rank = none) →
      ∀ kc ∈ l.foldl (fun pool ic => addKeyword pool (ic.1 + 1) ic.2) pool,
        kc.1 ∉ vKeys → kc.2.vector_rank = none := by
  intro l
  induction l with
  | nil => intro pool hP kc hkc; exact hP kc hkc
  | cons ic rest ih =>
    intro pool hP kc hkc
    rw [List.foldl_cons] at hkc
    refine ih (addKeyword pool (ic.1 + 1) ic.2) ?_ kc hkc
    intro kc' hkc'
    obtain ⟨k', c'⟩ := kc'
    unfold addKeyword at hkc'
    dsimp only at hkc'
    cases hl : pool.lookup (kwChunkKey ic.2) with
    | none =>
      rw [hl] at hkc'
      rcases List.mem_append.mp hkc' with hin | hin
      · exact hP _ hin
      · have heq : (k', c')
            = (kwChunkKey ic.2, makeCandidateKw ic.2 (ic.1 + 1)) := by
          simpa using hin
        rw [Prod.mk.injEq] at heq
        intro _
        rw [heq.2]
        rfl
    | some c₀' =>
      rw [hl] at hkc'
      rcases poolUpdate_mem _ _ _ _ _ hkc' with hin | ⟨hkey, c₀, hc₀, hcc⟩
      · exact hP _ hin
      · intro hnot
        rw [hcc, addKeywordUpdate_vector_rank]
        have hnot' : k' ∉ vKeys := hnot
        exact hP _ hc₀ (hkey ▸ hnot')

theorem buildPool_keyword_rank_none (vres : List VectorChunk)
    (kres : List KeywordChunk) :
    ∀ kc ∈ buildPool vres kres,
      kc.1 ∉ kres.map kwChunkKey → kc.2.keyword_rank = none := by
  unfold buildPool
  dsimp only
  apply kphase_keyword_rank_none (kres.map kwChunkKey) kres.enum
  · intro ic hic
    obtain ⟨i, kw⟩ := ic
    have h2 := List.mem_enum (h := hic)
    apply List.mem_map_of_mem
    rw [h2.2]
    exact List.getElem_mem _
  · intro kc hkc _
    exact vphase_keyword_rank_none vres.enum [] (by simp) kc hkc

theorem buildPool_vector_rank_none (vres : List VectorChunk)
    (kres : List KeywordChunk) :
    ∀ kc ∈ buildPool vres kres,
      kc.1 ∉ vres.map vChunkKey → kc.2.vector_rank = none := by
  unfold buildPool
  dsimp only
  apply kphase_vector_rank_none (vres.map vChunkKey) kres.enum
  intro kc hkc hnot
  exfalso
  apply hnot
  refine vphase_keys (· ∈ vres.map vChunkKey) vres.enum [] (by simp) ?_ kc hkc
  intro ic hic
  obtain ⟨i, vc⟩ := ic
  have h2 := List.mem_enum (h := hic)
  apply List.mem_map_of_mem
  rw [h2.2]
  exact List.getElem_mem _

/-- The incremental RRF accumulation equals the closed two-term sum. -/
theorem rrfScoreOf_eq (vW kW : ℚ) (c : Candidate) :
    rrfScoreOf vW kW c =
      (match c.vector_rank with
       | some r => vW * (1 / (60 + (r : ℚ)))
       | none => 0)
      + (match c.keyword_rank with
         | some r => kW * (1 / (60 + (r : ℚ)))
         | none => 0) := by
  unfold rrfScoreOf
  dsimp only
  cases c.vector_rank <;> cases c.keyword_rank <;> simp

theorem scoreCandidate_fields (vW kW : ℚ) (qk nn : List String)
    (c : Candidate) :
    (scoreCandidate vW kW qk nn c).rrf_score = rrfScoreOf vW kW c
    ∧ (scoreCandidate vW kW qk nn c).vector_rank = c.vector_rank
    ∧ (scoreCandidate vW kW qk nn c).keyword_rank = c.keyword_rank := by
  unfold scoreCandidate
  exact ⟨rfl, rfl, rfl⟩

/-- Membership form of the C3 property over the scored pool. -/
theorem scoredPool_rrf_mem (s : Settings) (query : String)
    (vres : List VectorChunk) (kres : List KeywordChunk) :
    ∀ kc ∈ scoredPool s query vres kres,
      (kc.2.rrf_score =
        (match kc.2.vector_rank with
         | some r => s.HYBRID_VECTOR_WEIGHT * (1 / (60 + (r : ℚ)))
         | none => 0)
        + (match kc.2.keyword_rank with
           | some r => s.HYBRID_KEYWORD_WEIGHT * (1 / (60 + (r : ℚ)))
           | none => 0))
      ∧ (kc.1 ∉ kres.map kwChunkKey →
          kc.2.keyword_rank = none
          ∧ kc.2.rrf_score =
            (match kc.2.vector_rank with
             | some r => s.HYBRID_VECTOR_WEIGHT * (1 / (60 + (r : ℚ)))
             | none => 0))
      ∧ (kc.1 ∉ vres.map vChunkKey →
          kc.2.vector_rank = none
          ∧ kc.2.rrf_score =
            (match kc.2.keyword_rank with
             | some r => s.HYBRID_KEYWORD_WEIGHT * (1 / (60 + (r : ℚ)))
             | none => 0)) := by
  intro kc hkc
  unfold scoredPool at hkc
  rcases List.mem_map.mp hkc with ⟨p, hp, hpe⟩
  obtain ⟨k0, c0⟩ := p
  obtain ⟨hsc, hvr, hkr⟩ := scoreCandidate_fields s.HYBRID_VECTOR_WEIGHT
    s.HYBRID_KEYWORD_WEIGHT (extractQueryKeywords query)
    (extractNeniNumbers query) c0
  have hk1 : kc.1 = k0 := by rw [← hpe]
  have hk2 : kc.2 = scoreCandidate s.HYBRID_VECTOR_WEIGHT
      s.HYBRID_KEYWORD_WEIGHT (extractQueryKeywords query)
      (extractNeniNumbers query) c0 := by rw [← hpe]
  have hformula : kc.2.rrf_score =
      (match kc.2.vector_rank with
       | some r => s.HYBRID_VECTOR_WEIGHT * (1 / (60 + (r : ℚ)))
       | none => 0)
      + (match kc.2.keyword_rank with
         | some r => s.HYBRID_KEYWORD_WEIGHT * (1 / (60 + (r : ℚ)))
         | none => 0) := by
    rw [hk2, hsc, hvr, hkr, rrfScoreOf_eq]
  refine ⟨hformula, ?_, ?_⟩
  · intro hnot
    have hkrn : c0.keyword_rank = none :=
      buildPool_keyword_rank_none vres kres (k0, c0) hp (hk1 ▸ hnot)
    have hkcn : kc.2.keyword_rank = none := by rw [hk2, hkr, hkrn]
    refine ⟨hkcn, ?_⟩
    rw [hformula, hkcn]
    simp
  · intro hnot
    have hvrn : c0.vector_rank = none :=
      buildPool_vector_rank_none vres kres (k0, c0) hp (hk1 ▸ hnot)
    have hvcn : kc.2.vector_rank = none := by rw [hk2, hvr, hvrn]
    refine ⟨hvcn, ?_⟩
    rw [hformula, hvcn]
    simp

/-- C3: every candidate's base RRF score is the weighted sum
`vW * 1/(60 + vector_rank) + kW * 1/(60 + keyword_rank)` over the
ranks that are present; a candidate whose key occurs in only one
adapter's results carries no rank from the other adapter and receives
exactly the single corresponding term. -/
theorem hybrid_rrf_score_formula (s : Settings) (query : String)
    (vres : List VectorChunk) (kres : List KeywordChunk) (i : Nat)
    (hi : i < (scoredPool s query vres kres).length) :
    (((scoredPool s query vres kres).get ⟨i, hi⟩).2.rrf_score =
      (match ((scoredPool s query vres kres).get ⟨i, hi⟩).2.vector_rank with
       | some r => s.HYBRID_VECTOR_WEIGHT * (1 / (60 + (r : ℚ)))
       | none => 0)
      + (match ((scoredPool s query vres kres).get ⟨i, hi⟩).2.keyword_rank with
         | some r => s.HYBRID_KEYWORD_WEIGHT * (1 / (60 + (r : ℚ)))
         | none => 0))
    ∧ (((scoredPool s query vres kres).get ⟨i, hi⟩).1 ∉ kres.map kwChunkKey →
        ((scoredPool s query vres kres).get ⟨i, hi⟩).2.keyword_rank = none
        ∧ ((scoredPool s query vres kres).get ⟨i, hi⟩).2.rrf_score =
          (match ((scoredPool s query vres kres).get ⟨i, hi⟩).2.vector_rank with
           | some r => s.HYBRID_VECTOR_WEIGHT * (1 / (60 + (r : ℚ)))
           | none => 0))
    ∧ (((scoredPool s query vres kres).get ⟨i, hi⟩).1 ∉ vres.map vChunkKey →
        ((scoredPool s query vres kres).get ⟨i, hi⟩).2.vector_rank = none
        ∧ ((scoredPool s query vres kres).get ⟨i, hi⟩).2.rrf_score =
          (match ((scoredPool s query vres kres).get ⟨i, hi⟩).2.keyword_rank with
           | some r => s.HYBRID_KEYWORD_WEIGHT * (1 / (60 + (r : ℚ)))
           | none => 0)) :=
  scoredPool_rrf_mem s query vres kres _ (List.get_mem _ _ _)

/-- C3 witness: in a concrete hybrid search with one vector result and
one keyword result under different keys, the vector-only candidate has
no keyword rank and its score is the vector term alone. -/
theorem hybrid_rrf_score_formula_witness :
    ((scoredPool defaultSettings "Neni 57" [wVec] [wKw]).get
      ⟨0, by decide⟩).2.keyword_rank = none := by
  have h := hybrid_rrf_score_formula defaultSettings "Neni 57" [wVec] [wKw]
    0 (by decide)
  exact (h.2.1 (by decide)).1

/- ───────────── C4: article cohesion ───────────── -/

theorem mem_insertDescBy {α β : Type} [LinearOrder β] (key : α → β)
    (a x : α) : ∀ l : List α, x ∈ insertDescBy key a l ↔ x = a ∨ x ∈ l := by
  intro l
  induction l with
  | nil => simp [insertDescBy]
  | cons y ys ih =>
    unfold insertDescBy
    by_cases h : key a < key y
    · rw [if_pos h]
      simp only [List.mem_cons, ih]
      tauto
    · rw [if_neg h]
      simp only [List.mem_cons]

theorem mem_sortDescBy {α β : Type} [LinearOrder β] (key : α → β) (x : α) :
    ∀ l : List α, x ∈ sortDescBy key l ↔ x ∈ l := by
  intro l
  induction l with
  | nil => simp [sortDescBy]
  | cons y ys ih =>
    unfold sortDescBy
    rw [mem_insertDescBy]
    simp only [List.mem_cons, ih]

theorem length_insertDescBy {α β : Type} [LinearOrder β] (key : α → β)
    (a : α) : ∀ l : List α, (insertDescBy key a l).length = l.length + 1 := by
  intro l
  induction l with
  | nil => rfl
  | cons y ys ih =>
    unfold insertDescBy
    by_cases h : key a < key y
    · rw [if_pos h]
      simp [ih]
    · rw [if_neg h]
      simp

theorem length_sortDescBy {α β : Type} [LinearOrder β] (key : α → β) :
    ∀ l : List α, (sortDescBy key l).length = l.length := by
  intro l
  induction l with
  | nil => rfl
  | cons y ys ih =>
    unfold sortDescBy
    rw [length_insertDescBy, ih, List.length_cons]

theorem pairwise_insertDescBy {α β : Type} [LinearOrder β] (key : α → β)
    (a : α) : ∀ l : List α,
      l.Pairwise (fun x y => key y ≤ key x) →
      (insertDescBy key a l).Pairwise (fun x y => key y ≤ key x) := by
  intro l
  induction l with
  | nil => intro _; simp [insertDescBy]
  | cons y ys ih =>
    intro hp
    rw [List.pairwise_cons] at hp
    unfold insertDescBy
    by_cases h : key a < key y
    · rw [if_pos h]
      rw [List.pairwise_cons]
      constructor
      · intro z hz
        rcases (mem_insertDescBy key a z ys).mp hz with hz | hz
        · rw [hz]; exact le_of_lt h
        · exact hp.1 z hz
      · exact ih hp.2
    · rw [if_neg h]
      rw [List.pairwise_cons]
      constructor
      · intro z hz
        rcases List.mem_cons.mp hz with hz | hz
        · rw [hz]; exact le_of_not_lt h
        · exact le_trans (hp.1 z hz) (le_of_not_lt h)
      · exact List.pairwise_cons.mpr hp
theorem pairwise_sortDescBy {α β : Type} [LinearOrder β] (key : α → β) :
    ∀ l : List α,
      (sortDescBy key l).Pairwise (fun x y => key y ≤ key x) := by
  intro l
  induction l with
  | nil => simp [sortDescBy]
  | cons y ys ih =>
    unfold sortDescBy
    exact pairwise_insertDescBy key y _ ih

/-- Phase 1 collects every pool member from a boosted article when the
capacity covers all of them, keeps whatever was already selected, and
never exceeds the capacity. -/
theorem cohesionPhase1_complete (boosted : List String) (k : Nat) :
    ∀ (l sel : List Candidate) (keys : List String),
      (∀ x ∈ l, candidateKey x ∉ keys) →
      l.Pairwise (fun a b => candidateKey a ≠ candidateKey b) →
      sel.length + l.countP (fun c => decide (pyStrip c.article ∈ boosted)) ≤ k →
      (∀ x ∈ sel, x ∈ (cohesionPhase1 boosted k l sel keys).1)
      ∧ (∀ x ∈ l, pyStrip x.article ∈ boosted →
          x ∈ (cohesionPhase1 boosted k l sel keys).1)
      ∧ (cohesionPhase1 boosted k l sel keys).1.length ≤ k := by
  intro l
  induction l with
  | nil =>
    intro sel keys _ _ hcap
    refine ⟨fun x hx => hx, fun x hx => absurd hx (List.not_mem_nil x), ?_⟩
    simpa using hcap
  | cons c rest ih =>
    intro sel keys hdisj hnd hcap
    rw [List.countP_cons] at hcap
    have hfresh : candidateKey c ∉ keys := hdisj c (List.mem_cons_self _ _)
    rw [List.pairwise_cons] at hnd
    by_cases hb : pyStrip c.article ∈ boosted
    · have hcount : (decide (pyStrip c.article ∈ boosted) : Bool) = true := by
        simpa using hb
      rw [hcount] at hcap
      simp only [if_true] at hcap
      unfold cohesionPhase1
      rw [if_pos hb, if_pos hfresh]
      by_cases hbreak : k ≤ (sel ++ [c]).length
      · rw [if_pos hbreak]
        have hlen : (sel ++ [c]).length = sel.length + 1 := by simp
        have hrest0 : rest.countP (fun c => decide (pyStrip c.article ∈ boosted)) = 0 := by
          omega
        refine ⟨fun x hx => List.mem_append_left _ hx, ?_, by
          show (sel ++ [c]).length ≤ k
          simp only [List.length_append, List.length_singleton]
          omega⟩
        intro x hx hxb
        rcases List.mem_cons.mp hx with hx | hx
        · rw [hx]; exact List.mem_append_right _ (List.mem_singleton.mpr rfl)
        · exfalso
          have := List.countP_eq_zero.mp hrest0 x hx
          simp [hxb] at this
      · rw [if_neg hbreak]
        have hdisj' : ∀ x ∈ rest, candidateKey x ∉ keys ++ [candidateKey c] := by
          intro x hx
          simp only [List.mem_append, List.mem_singleton]
          rintro (hin | hin)
          · exact hdisj x (List.mem_cons_of_mem _ hx) hin
          · exact hnd.1 x hx hin.symm
        have hcap' : (sel ++ [c]).length
            + rest.countP (fun c => decide (pyStrip c.article ∈ boosted)) ≤ k := by
          simp only [List.length_append, List.length_singleton]
          omega
        obtain ⟨hsel, hboosted, hlen⟩ := ih (sel ++ [c])
          (keys ++ [candidateKey c]) hdisj' hnd.2 hcap'
        refine ⟨fun x hx => hsel x (List.mem_append_left _ hx), ?_, hlen⟩
        intro x hx hxb
        rcases List.mem_cons.mp hx with hx | hx
        · rw [hx]
          exact hsel c (List.mem_append_right _ (List.mem_singleton.mpr rfl))
        · exact hboosted x hx hxb
    · have hcount : (decide (pyStrip c.article ∈ boosted) : Bool) = false := by
        simpa using hb
      rw [hcount] at hcap
      norm_num at hcap
      unfold cohesionPhase1
      rw [if_neg hb]
      have hdisj' : ∀ x ∈ rest, candidateKey x ∉ keys :=
        fun x hx => hdisj x (List.mem_cons_of_mem _ hx)
      obtain ⟨hsel, hboosted, hlen⟩ := ih sel keys hdisj' hnd.2 (by omega)
      refine ⟨hsel, ?_, hlen⟩
      intro x hx hxb
      rcases List.mem_cons.mp hx with hx | hx
      · exact absurd (hx ▸ hxb) hb
      · exact hboosted x hx hxb

/-- Phase 2 keeps the selection and never exceeds the capacity. -/
theorem cohesionPhase2_props (k : Nat) :
    ∀ (l sel : List Candidate) (keys : List String),
      sel.length ≤ k →
      (∀ x ∈ sel, x ∈ cohesionPhase2 k l sel keys)
      ∧ (cohesionPhase2 k l sel keys).length ≤ k := by
  intro l
  induction l with
  | nil => intro sel keys hlen; exact ⟨fun x hx => hx, hlen⟩
  | cons c rest ih =>
    intro sel keys hlen
    unfold cohesionPhase2
    by_cases hstop : k ≤ sel.length
    · rw [if_pos hstop]
      exact ⟨fun x hx => hx, hlen⟩
    · rw [if_neg hstop]
      by_cases hkey : candidateKey c ∉ keys
      · rw [if_pos hkey]
        have hlen' : (sel ++ [c]).length ≤ k := by
          simp only [List.length_append, List.length_singleton]
          omega
        obtain ⟨hsel, hl⟩ := ih (sel ++ [c]) (keys ++ [candidateKey c]) hlen'
        exact ⟨fun x hx => hsel x (List.mem_append_left _ hx), hl⟩
      · rw [if_neg hkey]
        exact ih sel keys hlen

/-- A fold step that only appends preserves membership in the
accumulator; used for the boosted-article set. -/
theorem boostedFold_mem (x : String) :
    ∀ (l : List Candidate) (acc : List String), x ∈ acc →
      x ∈ l.foldl (fun acc c =>
        let a := pyStrip c.article
        if a ≠ "" ∧ a ∉ acc then acc ++ [a] else acc) acc := by
  intro l
  induction l with
  | nil => intro acc h; exact h
  | cons c rest ih =>
    intro acc h
    rw [List.foldl_cons]
    apply ih
    dsimp only
    split_ifs with hc
    · exact List.mem_append_left _ h
    · exact h

/-- The top-ranked pool candidate's non-empty article label is always a
boosted article. -/
theorem head_article_boosted (pool : List Candidate) (hpool : pool ≠ [])
    (hart : pyStrip ((pool.head hpool).article) ≠ "") :
    pyStrip ((pool.head hpool).article) ∈ boostedArticlesOf pool := by
  obtain ⟨c0, rest, rfl⟩ := List.exists_cons_of_ne_nil hpool
  unfold boostedArticlesOf
  have htake : (c0 :: rest).take 3 = c0 :: rest.take 2 := rfl
  rw [htake, List.foldl_cons]
  apply boostedFold_mem
  dsimp only
  rw [if_pos ⟨by simpa using hart, List.not_mem_nil _⟩]
  simp

/-- C4: when the top-ranked pool candidate has a non-empty article
label and the capacity covers all pool members of boosted articles,
the cohesion pass keeps the top candidate and every same-article
sibling; the selection never exceeds `final_k` and is sorted by
`final_score` descending. -/
theorem article_cohesion_keeps_top_siblings (pool : List Candidate)
    (final_k : Nat) (hpool : pool ≠ [])
    (hnodup : pool.Pairwise (fun a b => candidateKey a ≠ candidateKey b))
    (hart0 : pyStrip ((pool.head hpool).article) ≠ "")
    (j : Nat) (hj : j < pool.length)
    (hart : pyStrip ((pool.get ⟨j, hj⟩).article)
      = pyStrip ((pool.head hpool).article))
    (hcap : pool.countP
      (fun c => decide (pyStrip c.article ∈ boostedArticlesOf pool))
      ≤ final_k) :
    pool.head hpool ∈ applyArticleCohesion pool final_k
    ∧ pool.get ⟨j, hj⟩ ∈ applyArticleCohesion pool final_k
    ∧ (applyArticleCohesion pool final_k).length ≤ final_k
    ∧ (applyArticleCohesion pool final_k).Pairwise
        (fun a b => b.final_score ≤ a.final_score) := by
  have hhb := head_article_boosted pool hpool hart0
  have hgb : pyStrip ((pool.get ⟨j, hj⟩).article) ∈ boostedArticlesOf pool := by
    rw [hart]; exact hhb
  have hbne : boostedArticlesOf pool ≠ [] := by
    intro h0
    rw [h0] at hhb
    exact List.not_mem_nil _ hhb
  unfold applyArticleCohesion
  rw [if_neg hpool]
  dsimp only
  rw [if_pos hbne]
  obtain ⟨hsel1, hboosted1, hlen1⟩ :=
    cohesionPhase1_complete (boostedArticlesOf pool) final_k pool [] []
      (by simp) hnodup (by simpa using hcap)
  set s1 := cohesionPhase1 (boostedArticlesOf pool) final_k pool [] [] with hs1
  obtain ⟨hsel2, hlen2⟩ := cohesionPhase2_props final_k pool s1.1 s1.2 hlen1
  set sel2 := cohesionPhase2 final_k pool s1.1 s1.2 with hsel2def
  have hsorted := pairwise_sortDescBy (fun c : Candidate => c.final_score) sel2
  have hlen3 : (sortDescBy (fun c : Candidate => c.final_score) sel2).length
      ≤ final_k := by
    rw [length_sortDescBy]
    exact hlen2
  have htake : (sortDescBy (fun c : Candidate => c.final_score) sel2).take final_k
      = sortDescBy (fun c : Candidate => c.final_score) sel2 :=
    List.take_of_length_le hlen3
  rw [htake]
  refine ⟨?_, ?_, hlen3, hsorted⟩
  · rw [mem_sortDescBy]
    exact hsel2 _ (hboosted1 _ (List.head_mem hpool) hhb)
  · rw [mem_sortDescBy]
    exact hsel2 _ (hboosted1 _ (List.get_mem pool j hj) hgb)

/-- C4 witness: with article-57 chunks ranked 1st and 3rd and capacity
8, both appear in the cohesion output, which stays within capacity. -/
theorem article_cohesion_witness :
    c4Top ∈ applyArticleCohesion [c4Top, c4Mid, c4Sibling] 8
    ∧ c4Sibling ∈ applyArticleCohesion [c4Top, c4Mid, c4Sibling] 8
    ∧ (applyArticleCohesion [c4Top, c4Mid, c4Sibling] 8).length ≤ 8 := by
  have h := article_cohesion_keeps_top_siblings [c4Top, c4Mid, c4Sibling] 8
    (by decide) (by decide) (by decide) 2 (by decide) (by decide) (by decide)
  exact ⟨h.1, h.2.1, h.2.2.1⟩

/- ───────────── C1: the coverage loop ───────────── -/

/-- The single-step equation of the fueled loop body. -/
theorem coverageLoopGo_succ (oracle : Nat → PassInput) (maxP fuel n : Nat)
    (a : String) (keys : List String) (c : Nat) (hn : ¬ maxP < n) :
    coverageLoopGo oracle maxP (fuel + 1) n a keys c =
      match coverageCheckIteration (oracle n) keys with
      | (CovOutcome.complete, _) => (a, c + 1)
      | (CovOutcome.updated a2, keys2) =>
        coverageLoopGo oracle maxP fuel (n + 1) a2 keys2 (c + 1)
      | (CovOutcome.gapsNoUpdate, _) => (a, c + 1)
      | (CovOutcome.checkError, _) => (a, c + 1) := by
  conv_lhs => unfold coverageLoopGo
  rw [if_neg hn]

/-- One unfold of the loop body for an in-range pass. -/
theorem coverageLoop_unfold (oracle : Nat → PassInput) (maxP n : Nat)
    (hn : n ≤ maxP) (a : String) (keys : List String) (c : Nat) :
    coverageLoop oracle maxP n a keys c =
      match coverageCheckIteration (oracle n) keys with
      | (CovOutcome.complete, _) => (a, c + 1)
      | (CovOutcome.updated a2, keys2) =>
        coverageLoop oracle maxP (n + 1) a2 keys2 (c + 1)
      | (CovOutcome.gapsNoUpdate, _) => (a, c + 1)
      | (CovOutcome.checkError, _) => (a, c + 1) := by
  have hfuel : maxP + 1 - n = (maxP - n) + 1 := by omega
  have hfuel2 : maxP - n = maxP + 1 - (n + 1) := by omega
  show coverageLoopGo oracle maxP (maxP + 1 - n) n a keys c = _
  rw [hfuel, coverageLoopGo_succ oracle maxP (maxP - n) n a keys c (by omega)]
  rcases hcc : coverageCheckIteration (oracle n) keys with ⟨out, keys2⟩
  cases out with
  | complete => rfl
  | gapsNoUpdate => rfl
  | checkError => rfl
  | updated a2 =>
    show coverageLoopGo oracle maxP (maxP - n) (n + 1) a2 keys2 (c + 1)
        = coverageLoop oracle maxP (n + 1) a2 keys2 (c + 1)
    rw [hfuel2]
    rfl

/-- The loop executes at most the remaining pass budget. -/
theorem coverageLoop_count_le (oracle : Nat → PassInput) (maxP : Nat) :
    ∀ (fuel n : Nat) (a : String) (keys : List String) (c : Nat),
      maxP + 1 - n ≤ fuel →
      (coverageLoop oracle maxP n a keys c).2 ≤ c + (maxP + 1 - n) := by
  intro fuel
  induction fuel with
  | zero =>
    intro n a keys c hf
    unfold coverageLoop
    have h0 : maxP + 1 - n = 0 := by omega
    rw [h0]
    show c ≤ c + 0
    omega
  | succ fuel ih =>
    intro n a keys c hf
    by_cases hn : maxP < n
    · unfold coverageLoop
      have h0 : maxP + 1 - n = 0 := by omega
      rw [h0]
      show c ≤ c + 0
      omega
    · rw [coverageLoop_unfold oracle maxP n (by omega) a keys c]
      rcases hcc : coverageCheckIteration (oracle n) keys with ⟨out, keys2⟩
      cases out with
      | complete =>
        show c + 1 ≤ c + (maxP + 1 - n)
        omega
      | gapsNoUpdate =>
        show c + 1 ≤ c + (maxP + 1 - n)
        omega
      | checkError =>
        show c + 1 ≤ c + (maxP + 1 - n)
        omega
      | updated a2 =>
        show (coverageLoop oracle maxP (n + 1) a2 keys2 (c + 1)).2
            ≤ c + (maxP + 1 - n)
        have := ih (n + 1) a2 keys2 (c + 1) (by omega)
        omega

/-- A pass whose verdict is COMPLETE (or coverage ≥ 95). -/
def isCompletePass (p : PassInput) : Prop :=
  p.covCheckFails = false ∧ (p.status = "COMPLETE" ∨ 95 ≤ p.coverage_pct)

/-- A gap pass whose retrieval adds zero chunks that are not already in
the existing-keys set. -/
def isNoNewEvidencePass (p : PassInput) (keys : List String) : Prop :=
  p.covCheckFails = false
  ∧ ¬(p.status = "COMPLETE" ∨ 95 ≤ p.coverage_pct)
  ∧ p.gap_queries ≠ []
  ∧ (collectNewKeys keys ((p.gap_queries.take 4).flatMap p.retrieved)).1 = []

/-- C1: the coverage loop of `generate_answer` terminates for every
verdict sequence: it executes at most `max_passes` passes; it stops
immediately (returning the current draft) on a COMPLETE verdict or a
coverage of at least 95%; it stops immediately when a gap-retrieval
pass adds zero passages not already in the existing-keys set; and on
an updated pass it replaces the draft with the regenerated answer and
continues, so the draft produced last is the one returned. -/
theorem coverage_loop_termination (oracle : Nat → PassInput) (maxP : Nat)
    (a0 : String) (keys0 : List String) :
    ((runCoverageLoop oracle maxP a0 keys0).2 ≤ maxP)
    ∧ (∀ (n : Nat) (a : String) (keys : List String) (c : Nat),
        n ≤ maxP → isCompletePass (oracle n) →
        coverageLoop oracle maxP n a keys c = (a, c + 1))
    ∧ (∀ (n : Nat) (a : String) (keys : List String) (c : Nat),
        n ≤ maxP → isNoNewEvidencePass (oracle n) keys →
        coverageLoop oracle maxP n a keys c = (a, c + 1))
    ∧ (∀ (n : Nat) (a a2 : String) (keys keys2 : List String) (c : Nat),
        n ≤ maxP →
        coverageCheckIteration (oracle n) keys = (CovOutcome.updated a2, keys2) →
        coverageLoop oracle maxP n a keys c
          = coverageLoop oracle maxP (n + 1) a2 keys2 (c + 1))
    ∧ defaultSettings.MQ_COVERAGE_MAX_PASSES = 3 := by
  refine ⟨?_, ?_, ?_, ?_, rfl⟩
  · have h := coverageLoop_count_le oracle maxP (maxP + 1 - 1) 1 a0 keys0 0
      (le_refl _)
    unfold runCoverageLoop
    omega
  · intro n a keys c hn hcomp
    rw [coverageLoop_unfold oracle maxP n hn a keys c]
    have hcc : coverageCheckIteration (oracle n) keys
        = (CovOutcome.complete, keys) := by
      unfold coverageCheckIteration
      rw [if_neg (by simp [hcomp.1]), if_pos hcomp.2]
    rw [hcc]
  · intro n a keys c hn hng
    rw [coverageLoop_unfold oracle maxP n hn a keys c]
    obtain ⟨hcf, hnc, hgq, hzero⟩ := hng
    have hcc : coverageCheckIteration (oracle n) keys
        = (CovOutcome.gapsNoUpdate,
           (collectNewKeys keys
             (((oracle n).gap_queries.take 4).flatMap (oracle n).retrieved)).2) := by
      unfold coverageCheckIteration
      rw [if_neg (by simp [hcf]), if_neg hnc, if_neg hgq]
      dsimp only
      rw [if_pos hzero]
    rw [hcc]
  · intro n a a2 keys keys2 c hn hcc
    rw [coverageLoop_unfold oracle maxP n hn a keys c, hcc]

/-- C1 witness: with the default pass budget 3, an oracle that reports
gaps with new evidence on pass 1 and COMPLETE on pass 2 runs exactly
two passes and returns the regenerated draft; a COMPLETE verdict stops
the loop after one pass. -/
theorem coverage_loop_termination_witness :
    (runCoverageLoop passOracle1 3 "draft one" []).2 ≤ 3
    ∧ coverageLoop passAllComplete 3 1 "draft one" [] 0 = ("draft one", 1)
    ∧ coverageLoop passOracle1 3 1 "draft one" [] 0
      = coverageLoop passOracle1 3 2 "draft two" ["1_0"] 1 := by
  refine ⟨(coverage_loop_termination passOracle1 3 "draft one" []).1, ?_, ?_⟩
  · exact (coverage_loop_termination passAllComplete 3 "d" []).2.1 1
      "draft one" [] 0 (by decide) ⟨rfl, Or.inl rfl⟩
  · exact (coverage_loop_termination passOracle1 3 "d" []).2.2.2.1 1
      "draft one" "draft two" [] ["1_0"] 0 (by decide) (by decide)

end LawAI
